import Mathlib

/-!
A shallow embedding of `copy.go` (package `copy`): a reflection-based
structural value-conversion library.  The embedding models the reflect
value universe the library manipulates — scalars (bool, string, the
signed and unsigned integer kinds), `time.Time`, pointers, flat structs,
slices of scalars and maps between scalars — together with the two
exported operations `CopyValue` (the unit coercion engine) and `Copy`
(the structural copy driver), the process-wide temporal configuration
(`DateTimeLayout`, `TimeZone`, `getTimeZone`) and the Go standard
library routines the code calls (`strconv.FormatBool/FormatInt/
FormatUint/ParseBool/ParseInt/ParseUint`, `time.ParseInLocation`,
`time.LoadLocation`).

Go panics are made explicit: both operations return in `Except GoPanic`,
and every `reflect.Value.Set` on a non-settable value, every
`reflect.Value.Type` on the zero `Value`, and every `Set` of a value
derived from an unexported field is modelled as `.error .panicked`.

Scope of the universe (documented restrictions, none touched by the
claims): float kinds are not modelled (floating point); struct types are
flat (fields hold scalars or pointers to scalars) and do not implement
`fmt.Stringer`.  `time.Time`'s three unexported internal fields
(`wall uint64`, `ext int64`, `loc *Location`) are modelled where they are
observable — the struct→map strategy enumerates them read-only
(`timeTimeSrcFields`), writing formatted values into string-valued maps
and panicking on numeric-valued ones, exactly as `reflect.Value.Set`
does with a value obtained from an unexported field.
-/

/-- The Go integer kinds: `int`, `int8` … `int64` (and the same widths for
the unsigned kinds).  On the 64-bit platforms the code targets, `int` and
`uint` are 64 bits wide. -/
inductive IntW
  | i | i8 | i16 | i32 | i64
deriving DecidableEq

/-- Bit width of an integer kind (`int`/`uint` are 64-bit). -/
def bits : IntW → Nat
  | .i => 64 | .i8 => 8 | .i16 => 16 | .i32 => 32 | .i64 => 64

/-- A Go panic (the only observable failure mode of `reflect`). -/
inductive GoPanic
  | panicked
deriving DecidableEq

instance {ε α : Type} [DecidableEq ε] [DecidableEq α] : DecidableEq (Except ε α) := fun a b =>
  match a, b with
  | .ok x, .ok y =>
      if h : x = y then .isTrue (congrArg Except.ok h)
      else .isFalse fun he => h (Except.ok.inj he)
  | .error x, .error y =>
      if h : x = y then .isTrue (congrArg Except.error h)
      else .isFalse fun he => h (Except.error.inj he)
  | .ok _, .error _ => .isFalse fun he => Except.noConfusion he
  | .error _, .ok _ => .isFalse fun he => Except.noConfusion he

/-- An instant, as `time.Time` stores one: seconds since the Unix epoch.
(Sub-second precision never arises: the only constructor in the library is
parsing with a second-granularity layout.) -/
structure DTime where
  epoch : Int
deriving DecidableEq

/-- A `*time.Location`: a named zone with a fixed offset from UTC in
seconds (sufficient for the zones the library resolves). -/
structure Location where
  name : String
  offset : Int
deriving DecidableEq

/-- `time.UTC`. -/
def utcLoc : Location := ⟨"UTC", 0⟩

/-- Models `time.LoadLocation` over the zone database for the zone names
exercised here; any other name fails to resolve. -/
def goLoadLocation (name : String) : Option Location :=
  if name = "UTC" then some utcLoc
  else if name = "Asia/Shanghai" then some ⟨"Asia/Shanghai", 28800⟩
  else none

/-- Scalar types of the universe: the kinds `CopyValue` coerces.
`time.Time` is listed here as a value type, though its reflect *kind* is
`Struct` (see `kindOf`). -/
inductive SType
  | sBool | sString | sInt (w : IntW) | sUint (w : IntW) | sTime
deriving DecidableEq

/-- Scalar values. -/
inductive SVal
  | b (x : Bool)
  | s (x : String)
  | i (w : IntW) (n : Int)
  | u (w : IntW) (n : Nat)
  | tm (t : DTime)
deriving DecidableEq

/-- Runtime type of a scalar value. -/
def stypeOf : SVal → SType
  | .b _ => .sBool
  | .s _ => .sString
  | .i w _ => .sInt w
  | .u w _ => .sUint w
  | .tm _ => .sTime

/-- Struct field types: a scalar, or a pointer to a scalar. -/
inductive FType
  | plain (s : SType)
  | ptrF (s : SType)
deriving DecidableEq

/-- Struct field values. -/
inductive FVal
  | plain (v : SVal)
  | ptr (ty : SType) (v : Option SVal)
deriving DecidableEq

/-- Runtime type of a field value. -/
def ftypeOf : FVal → FType
  | .plain v => .plain (stypeOf v)
  | .ptr ty _ => .ptrF ty

/-- Runtime types of the universe. -/
inductive RType
  | base (s : SType)
  | ptrT (p : RType)
  | structT (name : String) (fields : List (String × Bool × FType))
  | sliceT (elem : SType)
  | mapT (k v : SType)
deriving DecidableEq

/-- Runtime values.  `invalid` is the zero `reflect.Value`.  A struct
field is a name, an exported flag (`true` = exported, hence settable when
the struct is addressable) and a value.  `mapNilV` is a nil map (a valid
value of kind `Map` for which `IsNil` reports true). -/
inductive RValue
  | invalid
  | base (v : SVal)
  | ptrNil (pointee : RType)
  | ptrSome (pointee : RType) (v : RValue)
  | structV (name : String) (fields : List (String × Bool × FVal))
  | sliceV (elem : SType) (xs : List SVal)
  | mapV (k v : SType) (entries : List (SVal × SVal))
  | mapNilV (k v : SType)
deriving DecidableEq

/-- `reflect.Value.Type` (total; never consulted on `invalid`, which the
code guards with `IsValid`). -/
def typeOf : RValue → RType
  | .invalid => .base .sBool
  | .base v => .base (stypeOf v)
  | .ptrNil p => .ptrT p
  | .ptrSome p _ => .ptrT p
  | .structV n fs => .structT n (fs.map fun f => (f.1, f.2.1, ftypeOf f.2.2))
  | .sliceV e _ => .sliceT e
  | .mapV k v _ => .mapT k v
  | .mapNilV k v => .mapT k v

/-- A value handle as the engine receives it: the value, whether it is
settable (`CanSet`), and whether it was derived from an unexported struct
field (the read-only flag, which makes `Set`/`Interface` panic). -/
structure Handle where
  val : RValue
  settable : Bool
  ro : Bool
deriving DecidableEq

/-- Core of `indirectValue`: follow pointers until a non-pointer value or
a nil pointer.  `Elem` of a non-nil pointer is addressable and settable;
`Elem` of a nil pointer is the zero `Value`.  The read-only flag
propagates through `Elem`. -/
def indirectVal : RValue → Bool → Bool → Handle
  | .ptrNil _, _, _ => ⟨.invalid, false, false⟩
  | .ptrSome _ v, _, ro => indirectVal v true ro
  | v, s, ro => ⟨v, s, ro⟩

/-- `indirectValue` on a handle. -/
def indirectH (h : Handle) : Handle :=
  indirectVal h.val h.settable h.ro

/-- Writing through the original (possibly pointer-wrapped) destination:
replace the innermost non-pointer value. -/
def setInner : RValue → RValue → RValue
  | .ptrSome ty inner, nv => .ptrSome ty (setInner inner nv)
  | _, nv => nv

/-- The zero value of a scalar type (`reflect.New(T).Elem()`).  The zero
`time.Time` is 0001-01-01 00:00:00 UTC. -/
def zeroS : SType → SVal
  | .sBool => .b false
  | .sString => .s ""
  | .sInt w => .i w 0
  | .sUint w => .u w 0
  | .sTime => .tm ⟨-62135596800⟩

/- ### strconv: decimal formatting and parsing -/

/-- The decimal digit characters. -/
def digitChar : Nat → Char
  | 0 => '0' | 1 => '1' | 2 => '2' | 3 => '3' | 4 => '4'
  | 5 => '5' | 6 => '6' | 7 => '7' | 8 => '8' | _ => '9'

/-- Numeric value of a digit character. -/
def digitVal (c : Char) : Nat := c.toNat - 48

/-- Decimal digits of a natural number, most significant first, prepended
to `acc` (the loop inside `strconv.FormatInt`). -/
def natDigits (n : Nat) (acc : List Char) : List Char :=
  if n < 10 then digitChar n :: acc
  else natDigits (n / 10) (digitChar (n % 10) :: acc)
termination_by n
decreasing_by exact Nat.div_lt_self (by omega) (by omega)

/-- `strconv.FormatUint(n, 10)`. -/
def formatNat (n : Nat) : String := String.mk (natDigits n [])

/-- `strconv.FormatInt(n, 10)`. -/
def formatInt (n : Int) : String :=
  if n < 0 then String.mk ('-' :: natDigits n.natAbs []) else formatNat n.toNat

/-- `strconv.FormatBool`. -/
def formatBool (x : Bool) : String := if x then "true" else "false"

/-- Accumulating base-10 parse of a digit run; fails on any non-digit. -/
def parseNatAux : List Char → Nat → Option Nat
  | [], acc => some acc
  | c :: cs, acc => if c.isDigit then parseNatAux cs (acc * 10 + digitVal c) else none

/-- Parse a non-empty run of decimal digits. -/
def parseNatChars (cs : List Char) : Option Nat :=
  match cs with
  | [] => none
  | _ => parseNatAux cs 0

/-- The non-negative case of `strconv.ParseInt(s, 10, 0)`: `bitSize` 0
means the platform `int`, 64 bits here, so the range cutoff is `2^63-1`. -/
def parseIntPos (cs : List Char) : Option Int :=
  match parseNatChars cs with
  | some m => if (m : Int) ≤ 2 ^ 63 - 1 then some (m : Int) else none
  | none => none

/-- `strconv.ParseInt(s, 10, 0)`: optional sign, decimal digits, range
checked against the 64-bit `int` range. -/
def parseIntGo (s : String) : Option Int :=
  match s.data with
  | [] => none
  | c :: cs =>
      if c = '-' then
        match parseNatChars cs with
        | some m => if (m : Int) ≤ 2 ^ 63 then some (-(m : Int)) else none
        | none => none
      else if c = '+' then parseIntPos cs
      else parseIntPos (c :: cs)

/-- `strconv.ParseUint(s, 10, 0)`: no sign permitted, decimal digits,
range checked against the 64-bit `uint` range. -/
def parseUintGo (s : String) : Option Nat :=
  match parseNatChars s.data with
  | some m => if m < 2 ^ 64 then some m else none
  | none => none

/-- `strconv.ParseBool`: the canonical boolean literals. -/
def parseBoolGo (s : String) : Option Bool :=
  if s = "1" ∨ s = "t" ∨ s = "T" ∨ s = "TRUE" ∨ s = "true" ∨ s = "True" then some true
  else if s = "0" ∨ s = "f" ∨ s = "F" ∨ s = "FALSE" ∨ s = "false" ∨ s = "False" then some false
  else none

/-- `reflect.Value.Convert` to a signed integer kind: two's-complement
truncation to the destination width. -/
def truncInt (w : IntW) (n : Int) : Int :=
  let m := n % (2 ^ bits w : Int)
  if m < 2 ^ (bits w - 1) then m else m - 2 ^ bits w

/-- `n` is representable in the signed kind `w`. -/
def reprInt (w : IntW) (n : Int) : Prop :=
  -(2 ^ (bits w - 1) : Int) ≤ n ∧ n < 2 ^ (bits w - 1)

/-- `n` is representable in the unsigned kind `w`. -/
def reprUint (w : IntW) (n : Nat) : Prop := n < 2 ^ bits w

/- ### The time package: civil-date arithmetic, parsing, formatting -/

/-- Leap year in the proleptic Gregorian calendar. -/
def isLeap (y : Int) : Bool := y % 4 = 0 ∧ (y % 100 ≠ 0 ∨ y % 400 = 0)

/-- Number of days of month `m` (1–12) in year `y`. -/
def daysInMonth (y : Int) (m : Nat) : Nat :=
  match m with
  | 1 => 31 | 2 => if isLeap y then 29 else 28 | 3 => 31 | 4 => 30
  | 5 => 31 | 6 => 30 | 7 => 31 | 8 => 31 | 9 => 30 | 10 => 31
  | 11 => 30 | 12 => 31 | _ => 0

/-- Days since 1970-01-01 of the civil date `y-m-d` (proleptic
Gregorian). -/
def daysFromCivil (y m d : Int) : Int :=
  let y2 := if m ≤ 2 then y - 1 else y
  let era := Int.fdiv y2 400
  let yoe := y2 - era * 400
  let doy := (153 * (m + (if m > 2 then -3 else 9)) + 2) / 5 + d - 1
  let doe := yoe * 365 + yoe / 4 - yoe / 100 + doy
  era * 146097 + doe - 719468

/-- Civil date `(y, m, d)` of a count of days since 1970-01-01. -/
def civilFromDays (z0 : Int) : Int × Int × Int :=
  let z := z0 + 719468
  let era := Int.fdiv z 146097
  let doe := z - era * 146097
  let yoe := (doe - doe / 1460 + doe / 36524 - doe / 146096) / 365
  let y := yoe + era * 400
  let doy := doe - (365 * yoe + yoe / 4 - yoe / 100)
  let mp := (5 * doy + 2) / 153
  let d := doy - (153 * mp + 2) / 5 + 1
  let m := mp + (if mp < 10 then 3 else -9)
  (if m ≤ 2 then y + 1 else y, m, d)

/-- The Go constant `time.DateTime`. -/
def timeDateTime : String := "2006-01-02 15:04:05"

/-- Parse a 19-character `"2006-01-02 15:04:05"`-shaped text into its six
numeric components, validating ranges as the time package does. -/
def parseDateTimeChars (cs : List Char) : Option (Nat × Nat × Nat × Nat × Nat × Nat) :=
  match cs with
  | [y1, y2, y3, y4, '-', m1, m2, '-', d1, d2, ' ', h1, h2, ':', n1, n2, ':', s1, s2] =>
      if (y1.isDigit ∧ y2.isDigit ∧ y3.isDigit ∧ y4.isDigit ∧ m1.isDigit ∧ m2.isDigit ∧
          d1.isDigit ∧ d2.isDigit ∧ h1.isDigit ∧ h2.isDigit ∧ n1.isDigit ∧ n2.isDigit ∧
          s1.isDigit ∧ s2.isDigit : Bool) then
        let y := ((digitVal y1 * 10 + digitVal y2) * 10 + digitVal y3) * 10 + digitVal y4
        let mo := digitVal m1 * 10 + digitVal m2
        let d := digitVal d1 * 10 + digitVal d2
        let h := digitVal h1 * 10 + digitVal h2
        let mi := digitVal n1 * 10 + digitVal n2
        let sec := digitVal s1 * 10 + digitVal s2
        if 1 ≤ mo ∧ mo ≤ 12 ∧ 1 ≤ d ∧ d ≤ daysInMonth (y : Int) mo ∧ h ≤ 23 ∧ mi ≤ 59 ∧ sec ≤ 59 then
          some (y, mo, d, h, mi, sec)
        else none
      else none
  | _ => none

/-- `time.ParseInLocation(layout, s, loc)`, modelled for the default
layout `time.DateTime` (the only layout the library's callers configure);
other layouts are outside the model and fail to parse.  The wall-clock
fields are interpreted in `loc` and collapsed to an instant. -/
def parseInLocation (layout s : String) (loc : Location) : Option DTime :=
  if layout = timeDateTime then
    match parseDateTimeChars s.data with
    | some (y, mo, d, h, mi, sec) =>
        some ⟨daysFromCivil (y : Int) (mo : Int) (d : Int) * 86400 +
              (h : Int) * 3600 + (mi : Int) * 60 + (sec : Int) - loc.offset⟩
    | none => none
  else none

/-- Left-pad to two digits. -/
def pad2 (n : Int) : String := if n < 10 then "0" ++ formatInt n else formatInt n

/-- Left-pad to four digits. -/
def pad4 (n : Int) : String :=
  if n < 10 then "000" ++ formatInt n
  else if n < 100 then "00" ++ formatInt n
  else if n < 1000 then "0" ++ formatInt n
  else formatInt n

/-- `t.In(loc).Format(layout)`, modelled for the default layout
`time.DateTime` (the layout argument is carried for fidelity of the call
shape; the rendering is that of the default layout, the only one the
claims exercise). -/
def formatDateTime (layout : String) (t : DTime) (loc : Location) : String :=
  let _ := layout
  let w := t.epoch + loc.offset
  let days := Int.fdiv w 86400
  let secs := w - days * 86400
  let civ := civilFromDays days
  pad4 civ.1 ++ "-" ++ pad2 civ.2.1 ++ "-" ++ pad2 civ.2.2 ++ " " ++
    pad2 (secs / 3600) ++ ":" ++ pad2 (secs % 3600 / 60) ++ ":" ++ pad2 (secs % 60)

/- ### Process-wide configuration -/

/-- Initial value of the package-level variable `DateTimeLayout`
(`time.DateTime`). -/
def DateTimeLayout : String := timeDateTime

/-- Initial value of the package-level variable `TimeZone`. -/
def TimeZone : String := "Asia/Shanghai"

/-- A snapshot of the two package-level configuration variables together
with the environment's zone database (`time.LoadLocation`). -/
structure Config where
  dateTimeLayout : String
  timeZone : String
  loadLocation : String → Option Location

/-- The configuration at process start, against the real zone database. -/
def defaultConfig : Config := ⟨DateTimeLayout, TimeZone, goLoadLocation⟩

/-- `getTimeZone`: resolve the configured zone name at call time, falling
back to UTC when the name does not resolve. -/
def getTimeZone (cfg : Config) : Location :=
  match cfg.loadLocation cfg.timeZone with
  | some v => v
  | none => utcLoc

/- ### The Value Coercion Engine: DefaultService.CopyValue -/

/-- `toValue.Set(v)`: writes through the original destination handle, or
panics when the destination is not settable. -/
def writeRes (t : Handle) (orig nv : RValue) : Except GoPanic (Bool × RValue) :=
  if t.settable then .ok (true, setInner orig nv) else .error .panicked

/-- The `toType.Kind() == reflect.String` branch of `CopyValue`: format
the source scalar as text.  A `time.Time` source is readable only when
`CanInterface` holds (it fails on values derived from unexported fields);
structs of the universe do not implement `fmt.Stringer`, and every other
source kind falls through to `return false`. -/
def stringDestConv (cfg : Config) (f t : Handle) (orig : RValue) : Except GoPanic (Bool × RValue) :=
  match f.val with
  | .base (.b x) => writeRes t orig (.base (.s (formatBool x)))
  | .base (.i _ n) => writeRes t orig (.base (.s (formatInt n)))
  | .base (.u _ n) => writeRes t orig (.base (.s (formatNat n)))
  | .base (.tm x) =>
      if f.ro then .ok (false, orig)
      else writeRes t orig (.base (.s (formatDateTime cfg.dateTimeLayout x (getTimeZone cfg))))
  | _ => .ok (false, orig)

/-- The `fromType.Kind() == reflect.String` branch of `CopyValue`: parse
the source text into the destination scalar.  The integer destinations
parse at `bitSize` 0 (64-bit) and then `Convert`, truncating to the
destination width.  A `time.Time` destination returns true whether or not
the parse succeeded, writing only on success. -/
def stringSrcConv (cfg : Config) (s : String) (t : Handle) (orig : RValue) : Except GoPanic (Bool × RValue) :=
  match t.val with
  | .base (.b _) =>
      match parseBoolGo s with
      | some v => writeRes t orig (.base (.b v))
      | none => .ok (false, orig)
  | .base (.i w _) =>
      match parseIntGo s with
      | some v => writeRes t orig (.base (.i w (truncInt w v)))
      | none => .ok (false, orig)
  | .base (.u w _) =>
      match parseUintGo s with
      | some v => writeRes t orig (.base (.u w (v % 2 ^ bits w)))
      | none => .ok (false, orig)
  | .base (.tm _) =>
      match parseInLocation cfg.dateTimeLayout s (getTimeZone cfg) with
      | some x => if t.settable then .ok (true, setInner orig (.base (.tm x))) else .error .panicked
      | none => .ok (true, orig)
  | _ => .ok (false, orig)

/-- `fromValue.CanConvert(toType)` for pairs not already handled: the
numeric kinds convert between one another, and struct types with
identical field lists convert; nothing else does. -/
def numericT : RType → Bool
  | .base (.sInt _) => true
  | .base (.sUint _) => true
  | _ => false

/-- Whether the runtime allows `Convert` between the two types. -/
def canConvert (a b : RType) : Bool :=
  (numericT a && numericT b) ||
    (match a, b with
     | .structT _ fsA, .structT _ fsB => decide (fsA = fsB)
     | _, _ => false)

/-- `fromValue.Convert(toType)`: numeric conversions truncate to the
destination width (two's complement for the signed kinds); a struct
conversion re-types the value. -/
def convertVal (v : RValue) (dst : RType) : RValue :=
  match v, dst with
  | .base (.i _ n), .base (.sInt w) => .base (.i w (truncInt w n))
  | .base (.i _ n), .base (.sUint w) => .base (.u w (n % (2 ^ bits w : Int)).toNat)
  | .base (.u _ n), .base (.sInt w) => .base (.i w (truncInt w (n : Int)))
  | .base (.u _ n), .base (.sUint w) => .base (.u w (n % 2 ^ bits w))
  | .structV _ fs, .structT n _ => .structV n fs
  | x, _ => x

/-- The decision procedure of `DefaultService.CopyValue` after both
handles have been indirected (`orig` is the destination argument's full
value, through which writes happen).  Branches in source order: validity
of both sides, direct assignability (identical types in this universe),
string destination, string source, runtime convertibility, else false.
`Set` panics when the destination is not settable or the source value was
derived from an unexported field. -/
def copyValueCore (cfg : Config) (f t : Handle) (orig : RValue) : Except GoPanic (Bool × RValue) :=
  if f.val = .invalid then .ok (false, orig)
  else if t.val = .invalid then .ok (false, orig)
  else if typeOf f.val = typeOf t.val then
    if f.ro = true ∨ t.settable = false then .error .panicked
    else .ok (true, setInner orig f.val)
  else if typeOf t.val = .base .sString then stringDestConv cfg f t orig
  else if typeOf f.val = .base .sString then
    match f.val with
    | .base (.s s) => stringSrcConv cfg s t orig
    | _ => .ok (false, orig)
  else if canConvert (typeOf f.val) (typeOf t.val) then
    if f.ro = true ∨ t.settable = false then .error .panicked
    else .ok (true, setInner orig (convertVal f.val (typeOf t.val)))
  else .ok (false, orig)

/-- `DefaultService.CopyValue(fromValue, toValue)`: indirect both handles
and run the decision procedure; the second component of a successful
result is the destination argument's (possibly updated) value. -/
def CopyValue (cfg : Config) (fromH toH : Handle) : Except GoPanic (Bool × RValue) :=
  copyValueCore cfg (indirectH fromH) (indirectH toH) toH.val

/- ### The Structural Copy Driver: Copy -/

/-- Struct fields as the driver manipulates them. -/
abbrev Fld := String × Bool × FVal

/-- `FieldByName` (on the value side): the field with the given name.
Go structs cannot repeat a field name, so the first match is the field. -/
def findField : List Fld → String → Option Fld
  | [], _ => none
  | g :: rest, n => if g.1 = n then some g else findField rest n

/-- Replace the value of the named field, preserving name and flag. -/
def updateField : List Fld → String → FVal → List Fld
  | [], _, _ => []
  | g :: rest, n, nv => if g.1 = n then (g.1, g.2.1, nv) :: rest else g :: updateField rest n nv

/-- The driver's pointer-field allocation: a nil pointer-typed destination
field is allocated zero-initialized before conversion. -/
def allocIfNilPtr : FVal → FVal
  | .ptr ty none => .ptr ty (some (zeroS ty))
  | v => v

/-- A field value as a runtime value handle. -/
def FVal.toR : FVal → RValue
  | .plain v => .base v
  | .ptr ty none => .ptrNil (.base ty)
  | .ptr ty (some v) => .ptrSome (.base ty) (.base v)

/-- Read an updated field handle back as a field value (the handles the
driver builds keep these shapes; `d` is the pre-call value, returned
unchanged when no write happened through a shape the model recognises). -/
def asFVal (d : FVal) (r : RValue) : FVal :=
  match r with
  | .base v => .plain v
  | .ptrNil (.base ty) => .ptr ty none
  | .ptrSome (.base ty) (.base v) => .ptr ty (some v)
  | _ => d

/-- Read a fresh scalar slot back as a scalar value. -/
def asSVal (d : SVal) (r : RValue) : SVal :=
  match r with
  | .base v => v
  | _ => d

/-- `SetMapIndex`: insert or overwrite a key. -/
def mapInsert (l : List (SVal × SVal)) (k v : SVal) : List (SVal × SVal) :=
  match l with
  | [] => [(k, v)]
  | p :: rest => if p.1 = k then (k, v) :: rest else p :: mapInsert rest k v

/-- One source element of a slice→slice copy: allocate a fresh zero slot
of the destination element type, run the engine, and append only on
success. -/
def sliceCopyFold (cfg : Config) (eD : SType) (xs ys : List SVal) : Except GoPanic (List SVal) :=
  xs.foldlM
    (fun acc x => do
      let r ← CopyValue cfg ⟨.base x, false, false⟩ ⟨.base (zeroS eD), true, false⟩
      pure (if r.1 then acc ++ [asSVal (zeroS eD) r.2] else acc))
    ys

/-- One source key/value pair of a map→map copy: the pair is written only
when both the key and the value convert. -/
def mapPairStep (cfg : Config) (kD vD : SType) (acc : List (SVal × SVal)) (p : SVal × SVal) :
    Except GoPanic (List (SVal × SVal)) := do
  let rk ← CopyValue cfg ⟨.base p.1, false, false⟩ ⟨.base (zeroS kD), true, false⟩
  if rk.1 = false then pure acc
  else do
    let rv ← CopyValue cfg ⟨.base p.2, false, false⟩ ⟨.base (zeroS vD), true, false⟩
    if rv.1 = false then pure acc
    else pure (mapInsert acc (asSVal (zeroS kD) rk.2) (asSVal (zeroS vD) rv.2))

/-- The map→map loop. -/
def mapCopyFold (cfg : Config) (kD vD : SType) (es ds : List (SVal × SVal)) :
    Except GoPanic (List (SVal × SVal)) :=
  es.foldlM (mapPairStep cfg kD vD) ds

/-- Copy one source handle into the named destination field: skipped when
the field does not exist or is not settable; a nil pointer-typed field is
allocated first (and stays allocated even if the conversion then fails);
the engine's boolean result is ignored. -/
def structFieldInto (cfg : Config) (src : Handle) (acc : List Fld) (fname : String) :
    Except GoPanic (List Fld) :=
  match findField acc fname with
  | none => pure acc
  | some g =>
      if g.2.1 = false then pure acc
      else
        let tv := allocIfNilPtr g.2.2
        let acc2 := updateField acc fname tv
        do
          let r ← CopyValue cfg src ⟨FVal.toR tv, true, false⟩
          pure (updateField acc2 fname (asFVal tv r.2))

/-- One source field of a struct→struct copy: the source field value is
fetched by name; a value derived from an unexported source field carries
the read-only flag. -/
def structStructStep (cfg : Config) (fsS acc : List Fld) (fld : Fld) : Except GoPanic (List Fld) :=
  let srcFld := (findField fsS fld.1).getD fld
  structFieldInto cfg ⟨FVal.toR srcFld.2.2, false, !srcFld.2.1⟩ acc fld.1

/-- The struct→struct loop, driven by the source's fields in order. -/
def structStructFold (cfg : Config) (fsS fsD : List Fld) : Except GoPanic (List Fld) :=
  fsS.foldlM (structStructStep cfg fsS) fsD

/-- `kv.Key().String()`: the key as text; on a non-string kind the
reflect package yields a `"<T Value>"` placeholder. -/
def goValueString : SVal → String
  | .s s => s
  | .b _ => "<bool Value>"
  | .i .i _ => "<int Value>"
  | .i .i8 _ => "<int8 Value>"
  | .i .i16 _ => "<int16 Value>"
  | .i .i32 _ => "<int32 Value>"
  | .i .i64 _ => "<int64 Value>"
  | .u .i _ => "<uint Value>"
  | .u .i8 _ => "<uint8 Value>"
  | .u .i16 _ => "<uint16 Value>"
  | .u .i32 _ => "<uint32 Value>"
  | .u .i64 _ => "<uint64 Value>"
  | .tm _ => "<time.Time Value>"

/-- One source pair of a map→struct copy: the key's text names the
destination field. -/
def mapStructStep (cfg : Config) (acc : List Fld) (p : SVal × SVal) : Except GoPanic (List Fld) :=
  structFieldInto cfg ⟨.base p.2, false, false⟩ acc (goValueString p.1)

/-- The map→struct loop. -/
def mapStructFold (cfg : Config) (es : List (SVal × SVal)) (fsD : List Fld) :
    Except GoPanic (List Fld) :=
  es.foldlM (mapStructStep cfg) fsD

/-- One source field of a struct→map copy: the field name converts into
the key type and the field value into the value type; the entry is
written only when both succeed. -/
def structMapStep (cfg : Config) (kD vD : SType) (fsS : List Fld) (acc : List (SVal × SVal))
    (fld : Fld) : Except GoPanic (List (SVal × SVal)) := do
  let rk ← CopyValue cfg ⟨.base (.s fld.1), false, false⟩ ⟨.base (zeroS kD), true, false⟩
  if rk.1 = false then pure acc
  else
    let srcFld := (findField fsS fld.1).getD fld
    do
      let rv ← CopyValue cfg ⟨FVal.toR srcFld.2.2, false, !srcFld.2.1⟩
                 ⟨.base (zeroS vD), true, false⟩
      if rv.1 = false then pure acc
      else pure (mapInsert acc (asSVal (zeroS kD) rk.2) (asSVal (zeroS vD) rv.2))

/-- The struct→map loop. -/
def structMapFold (cfg : Config) (kD vD : SType) (fsS : List Fld) (ds : List (SVal × SVal)) :
    Except GoPanic (List (SVal × SVal)) :=
  fsS.foldlM (structMapStep cfg kD vD fsS) ds

/-- Kind `Pointer`. -/
def isPtrVal : RValue → Bool
  | .ptrNil _ => true
  | .ptrSome _ _ => true
  | _ => false

/-- `wall` of a `time.Time` of the universe.  Every `time.Time` the
library constructs (parsing at second granularity; the zero value) has no
monotonic reading and zero nanoseconds, so `wall` — which then holds only
the nanosecond count — is 0. -/
def timeWall (_x : DTime) : Nat := 0

/-- `ext` of a `time.Time` of the universe: with no monotonic reading it
holds the signed seconds since January 1 of year 1 (the zero `time.Time`,
epoch `-62135596800`, has `ext = 0`). -/
def timeExt (x : DTime) : Int := x.epoch + 62135596800

/-- The three unexported fields of a `time.Time`, as the struct→map loop
reads them via `FieldByName`: read-only value handles for
`wall uint64`, `ext int64` and `loc *time.Location`.  `loc`'s pointee
type is outside the universe: whether the pointer is nil (`Elem` is the
zero `Value`) or not (a read-only struct of a type no universe
destination is assignable or convertible from), its conversion into any
universe destination returns false without a write, so it is modelled as
a nil pointer. -/
def timeTimeSrcFields (x : DTime) : List (String × Handle) :=
  [("wall", ⟨.base (.u .i64 (timeWall x)), false, true⟩),
   ("ext", ⟨.base (.i .i64 (timeExt x)), false, true⟩),
   ("loc", ⟨.ptrNil (.base .sBool), false, true⟩)]

/-- One field of a struct→map copy whose source is a `time.Time`: the
field name converts into the key type and the read-only field value into
the value type; the entry is written only when both succeed.  Reading a
read-only integer into a string destination formats it; an assignable or
runtime-convertible numeric destination panics at `Set`. -/
def tmMapStep (cfg : Config) (kD vD : SType) (acc : List (SVal × SVal)) (p : String × Handle) :
    Except GoPanic (List (SVal × SVal)) := do
  let rk ← CopyValue cfg ⟨.base (.s p.1), false, false⟩ ⟨.base (zeroS kD), true, false⟩
  if rk.1 = false then pure acc
  else do
    let rv ← CopyValue cfg p.2 ⟨.base (zeroS vD), true, false⟩
    if rv.1 = false then pure acc
    else pure (mapInsert acc (asSVal (zeroS kD) rk.2) (asSVal (zeroS vD) rv.2))

/-- The struct→map loop over a `time.Time` source's internal fields. -/
def tmMapFold (cfg : Config) (kD vD : SType) (x : DTime) (ds : List (SVal × SVal)) :
    Except GoPanic (List (SVal × SVal)) :=
  (timeTimeSrcFields x).foldlM (tmMapStep cfg kD vD) ds

/-- `Copy(from, to)`: the structural copy driver.  An invalid source is a
no-op; `toValue.Type()` on an invalid destination argument panics (the
zero `reflect.Value`); a non-pointer destination is a no-op.  Both sides
are then indirected — `Type()` panics again if either fully indirects to
the zero `Value` (a nil pointer) — and the ordered pair of kinds selects
the strategy.  `time.Time` has kind `Struct`.  As a field-wise
*destination* it is never written: its three fields are unexported, so
`CanSet` fails.  A `time.Time` *source* of a struct→struct copy also
writes nothing: a destination field matching one of the lowercase names
`wall`/`ext`/`loc` is itself unexported in Go, so `CanSet` skips it.  A
`time.Time` source of a struct→map copy, however, really enumerates
`wall`/`ext`/`loc` (`tmMapFold`): with a string value type it writes the
formatted `wall` and `ext`, and with a numeric value type it panics,
`Set` being handed a value obtained from an unexported field. -/
def Copy (cfg : Config) (fromA toA : RValue) : Except GoPanic RValue :=
  if fromA = .invalid then .ok toA
  else if toA = .invalid then .error .panicked
  else if isPtrVal toA = false then .ok toA
  else
    let f := indirectH ⟨fromA, false, false⟩
    let t := indirectH ⟨toA, false, false⟩
    if f.val = .invalid then .error .panicked
    else if t.val = .invalid then .error .panicked
    else
      match f.val, t.val with
      | .sliceV _ xs, .sliceV eD ys => do
          let final ← sliceCopyFold cfg eD xs ys
          pure (setInner toA (.sliceV eD final))
      | .structV _ fsS, .structV nD fsD => do
          let final ← structStructFold cfg fsS fsD
          pure (setInner toA (.structV nD final))
      | .structV _ _, .base (.tm _) => pure toA
      | .base (.tm _), .structV _ _ => pure toA
      | .base (.tm _), .base (.tm _) => pure toA
      | .mapV _ _ es, .mapV kD vD ds => do
          let final ← mapCopyFold cfg kD vD es ds
          pure (setInner toA (.mapV kD vD final))
      | .mapV _ _ es, .mapNilV kD vD => do
          let final ← mapCopyFold cfg kD vD es []
          pure (setInner toA (.mapV kD vD final))
      | .mapNilV _ _, .mapV _ _ _ => pure toA
      | .mapNilV _ _, .mapNilV kD vD => pure (setInner toA (.mapV kD vD []))
      | .mapV _ _ es, .structV nD fsD => do
          let final ← mapStructFold cfg es fsD
          pure (setInner toA (.structV nD final))
      | .mapV _ _ _, .base (.tm _) => pure toA
      | .mapNilV _ _, .structV _ _ => pure toA
      | .mapNilV _ _, .base (.tm _) => pure toA
      | .structV _ fsS, .mapV kD vD ds => do
          let final ← structMapFold cfg kD vD fsS ds
          pure (setInner toA (.mapV kD vD final))
      | .structV _ fsS, .mapNilV kD vD => do
          let final ← structMapFold cfg kD vD fsS []
          pure (setInner toA (.mapV kD vD final))
      | .base (.tm x), .mapV kD vD ds => do
          let final ← tmMapFold cfg kD vD x ds
          pure (setInner toA (.mapV kD vD final))
      | .base (.tm x), .mapNilV kD vD => do
          let final ← tmMapFold cfg kD vD x []
          pure (setInner toA (.mapV kD vD final))
      | _, _ => do
          let r ← CopyValue cfg ⟨fromA, false, false⟩ ⟨toA, false, false⟩
          pure r.2

/-- The per-unit conversion a structural copy performs into a fresh zero
slot of scalar type `ty`: the converted value when the engine reports
success, `none` otherwise. -/
def scalarConv (cfg : Config) (ty : SType) (x : SVal) : Option SVal :=
  match CopyValue cfg ⟨.base x, false, false⟩ ⟨.base (zeroS ty), true, false⟩ with
  | .ok (true, r) => some (asSVal (zeroS ty) r)
  | _ => none

/-- The pairwise conversion of one map entry: defined exactly when both
the key and the value convert into fresh slots of the destination key and
value types. -/
def mapPairConv (cfg : Config) (kD vD : SType) (p : SVal × SVal) : Option (SVal × SVal) :=
  match scalarConv cfg kD p.1, scalarConv cfg vD p.2 with
  | some k, some v => some (k, v)
  | _, _ => none

/-- The conversion of a struct field value into a fresh slot of scalar
type `ty` (the handle carries the read-only flag of an unexported
field). -/
def fieldValConv (cfg : Config) (ty : SType) (fld : Fld) : Option SVal :=
  match CopyValue cfg ⟨FVal.toR fld.2.2, false, !fld.2.1⟩ ⟨.base (zeroS ty), true, false⟩ with
  | .ok (true, r) => some (asSVal (zeroS ty) r)
  | _ => none

/-- The pairwise conversion a struct→map copy performs for one source
field: the field name into the key type and the field's value (fetched by
name) into the value type. -/
def structMapPairConv (cfg : Config) (kD vD : SType) (fsS : List Fld) (fld : Fld) :
    Option (SVal × SVal) :=
  match scalarConv cfg kD (.s fld.1), fieldValConv cfg vD ((findField fsS fld.1).getD fld) with
  | some k, some v => some (k, v)
  | _, _ => none

/-- Relation between an original destination field and its counterpart
after a struct copy: name and exported flag are preserved, and a field
whose name has no source-side match, or which is not settable, is left
exactly as the caller provided it. -/
def fieldsRel (ns : List String) (g r : Fld) : Prop :=
  r.1 = g.1 ∧ r.2.1 = g.2.1 ∧ ((g.1 ∉ ns ∨ g.2.1 = false) → r = g)

/-- The argument fully dereferences to a concrete (valid) value: no nil
pointer at any level and not the zero `Value`. -/
def derefsOk : RValue → Bool
  | .invalid => false
  | .ptrNil _ => false
  | .ptrSome _ v => derefsOk v
  | _ => true

/-- After indirection the source is not a struct with unexported fields
(whose values carry the read-only flag that makes `Set` panic).
`time.Time` is such a struct — all three of its fields are unexported —
so a `time.Time` source never satisfies this. -/
def srcFieldsExported (a : RValue) : Bool :=
  match (indirectVal a false false).val with
  | .structV _ fs => fs.all fun fld => fld.2.1
  | .base (.tm _) => false
  | _ => true

/- ### Round-trip lemmas for the decimal codecs -/

theorem digitChar_spec (n : Nat) (h : n < 10) :
    (digitChar n).isDigit = true ∧ digitVal (digitChar n) = n := by
  interval_cases n <;> exact ⟨by decide, by decide⟩

theorem natDigits_eq (n : Nat) (acc : List Char) :
    natDigits n acc =
      if n < 10 then digitChar n :: acc else natDigits (n / 10) (digitChar (n % 10) :: acc) := by
  rw [natDigits]

theorem natDigits_append (n : Nat) : ∀ acc : List Char, natDigits n acc = natDigits n [] ++ acc := by
  induction n using Nat.strong_induction_on with
  | _ n ih =>
    intro acc
    by_cases h : n < 10
    · rw [natDigits_eq n acc, if_pos h, natDigits_eq n [], if_pos h]
      simp
    · rw [natDigits_eq n acc, if_neg h, natDigits_eq n [], if_neg h,
        ih (n / 10) (Nat.div_lt_self (by omega) (by omega)) (digitChar (n % 10) :: acc),
        ih (n / 10) (Nat.div_lt_self (by omega) (by omega)) (digitChar (n % 10) :: [])]
      simp

theorem parseNatAux_append (xs ys : List Char) (a : Nat) :
    parseNatAux (xs ++ ys) a = (parseNatAux xs a).bind fun b => parseNatAux ys b := by
  induction xs generalizing a with
  | nil => rfl
  | cons c cs ih =>
    simp only [List.cons_append, parseNatAux]
    split
    · exact ih _
    · rfl

theorem parseNatAux_natDigits (n : Nat) :
    ∀ a, parseNatAux (natDigits n []) a = some (a * 10 ^ (natDigits n []).length + n) := by
  induction n using Nat.strong_induction_on with
  | _ n ih =>
    intro a
    by_cases h : n < 10
    · rw [natDigits_eq, if_pos h]
      simp [parseNatAux, (digitChar_spec n h).1, (digitChar_spec n h).2]
    · have hd := digitChar_spec (n % 10) (Nat.mod_lt _ (by omega))
      rw [natDigits_eq n [], if_neg h, natDigits_append, parseNatAux_append,
        ih (n / 10) (Nat.div_lt_self (by omega) (by omega)) a]
      have hstep : ∀ b : Nat, parseNatAux [digitChar (n % 10)] b = some (b * 10 + n % 10) := by
        intro b
        simp [parseNatAux, hd.1, hd.2]
      rw [Option.some_bind, hstep]
      simp only [List.length_append, List.length_cons, List.length_nil]
      have hp : a * 10 ^ ((natDigits (n / 10) []).length + (0 + 1)) =
          a * 10 ^ (natDigits (n / 10) []).length * 10 := by ring
      rw [hp]
      have hdm := Nat.div_add_mod n 10
      generalize a * 10 ^ (natDigits (n / 10) []).length = m at *
      congr 1
      omega

theorem natDigits_head_digit (n : Nat) :
    ∃ c cs, natDigits n [] = c :: cs ∧ c.isDigit = true := by
  induction n using Nat.strong_induction_on with
  | _ n ih =>
    by_cases h : n < 10
    · exact ⟨digitChar n, [], by rw [natDigits_eq, if_pos h], (digitChar_spec n h).1⟩
    · obtain ⟨c, cs, hcs, hdig⟩ := ih (n / 10) (Nat.div_lt_self (by omega) (by omega))
      refine ⟨c, cs ++ [digitChar (n % 10)], ?_, hdig⟩
      rw [natDigits_eq, if_neg h, natDigits_append, hcs]
      simp

theorem parseNatChars_natDigits (n : Nat) : parseNatChars (natDigits n []) = some n := by
  obtain ⟨c, cs, hcs, _⟩ := natDigits_head_digit n
  have := parseNatAux_natDigits n 0
  rw [hcs] at this ⊢
  simpa [parseNatChars] using this

theorem digit_not_sign {c : Char} (h : c.isDigit = true) : c ≠ '-' ∧ c ≠ '+' := by
  constructor <;> rintro rfl <;> exact absurd h (by decide)

theorem parseUintGo_formatNat (n : Nat) (h : n < 2 ^ 64) : parseUintGo (formatNat n) = some n := by
  have hd : (formatNat n).data = natDigits n [] := rfl
  rw [parseUintGo, hd, parseNatChars_natDigits]
  exact if_pos h

theorem parseIntGo_formatInt (n : Int) (h1 : -(2 ^ 63 : Int) ≤ n) (h2 : n ≤ 2 ^ 63 - 1) :
    parseIntGo (formatInt n) = some n := by
  by_cases hn : n < 0
  · have hd : (formatInt n).data = '-' :: natDigits n.natAbs [] := by
      rw [formatInt, if_pos hn]
    rw [parseIntGo]
    rw [hd]
    simp only [reduceIte, parseNatChars_natDigits]
    have hr : (n.natAbs : Int) ≤ 2 ^ 63 := by omega
    rw [if_pos hr]
    congr 1
    omega
  · have hd : (formatInt n).data = natDigits n.toNat [] := by
      rw [formatInt, if_neg hn]
      rfl
    obtain ⟨c, cs, hcs, hdig⟩ := natDigits_head_digit n.toNat
    have hsg := digit_not_sign hdig
    have hpc : parseNatChars (c :: cs) = some n.toNat := by
      rw [← hcs, parseNatChars_natDigits]
    rw [parseIntGo, hd, hcs]
    simp only [hsg.1, hsg.2, if_false, parseIntPos, hpc]
    have hr : ((n.toNat : Int) ≤ 2 ^ 63 - 1) := by omega
    rw [if_pos hr]
    congr 1
    omega

theorem truncInt_of_repr (w : IntW) (n : Int) (h : reprInt w n) : truncInt w n = n := by
  obtain ⟨h1, h2⟩ := h
  cases w <;> simp only [truncInt, bits] at * <;> norm_num at * <;> omega

/- ### Engine lemmas -/

theorem writeRes_ok (t : Handle) (ht : t.settable = true) (orig nv : RValue) :
    writeRes t orig nv = .ok (true, setInner orig nv) := by
  simp [writeRes, ht]

theorem stringDestConv_ok (cfg : Config) (f t : Handle) (orig : RValue) (ht : t.settable = true) :
    ∃ out, stringDestConv cfg f t orig = .ok out := by
  unfold stringDestConv
  split
  · exact ⟨_, writeRes_ok t ht _ _⟩
  · exact ⟨_, writeRes_ok t ht _ _⟩
  · exact ⟨_, writeRes_ok t ht _ _⟩
  · split
    · exact ⟨_, rfl⟩
    · exact ⟨_, writeRes_ok t ht _ _⟩
  · exact ⟨_, rfl⟩

theorem stringSrcConv_ok (cfg : Config) (s : String) (t : Handle) (orig : RValue)
    (ht : t.settable = true) : ∃ out, stringSrcConv cfg s t orig = .ok out := by
  unfold stringSrcConv
  split
  · split
    · exact ⟨_, writeRes_ok t ht _ _⟩
    · exact ⟨_, rfl⟩
  · split
    · exact ⟨_, writeRes_ok t ht _ _⟩
    · exact ⟨_, rfl⟩
  · split
    · exact ⟨_, writeRes_ok t ht _ _⟩
    · exact ⟨_, rfl⟩
  · split
    · rw [ht]
      exact ⟨_, rfl⟩
    · exact ⟨_, rfl⟩
  · exact ⟨_, rfl⟩

theorem copyValueCore_ok (cfg : Config) (f t : Handle) (orig : RValue) (hro : f.ro = false)
    (ht : t.settable = true ∨ t.val = .invalid) :
    ∃ out, copyValueCore cfg f t orig = .ok out := by
  unfold copyValueCore
  by_cases hf : f.val = .invalid
  · exact ⟨_, by rw [if_pos hf]⟩
  rw [if_neg hf]
  by_cases htv : t.val = .invalid
  · exact ⟨_, by rw [if_pos htv]⟩
  rw [if_neg htv]
  have hts : t.settable = true := by tauto
  by_cases ha : typeOf f.val = typeOf t.val
  · rw [if_pos ha, if_neg (by simp [hro, hts])]
    exact ⟨_, rfl⟩
  rw [if_neg ha]
  by_cases hsd : typeOf t.val = .base .sString
  · rw [if_pos hsd]
    exact stringDestConv_ok cfg f t orig hts
  rw [if_neg hsd]
  by_cases hss : typeOf f.val = .base .sString
  · rw [if_pos hss]
    split
    · exact stringSrcConv_ok cfg _ t orig hts
    · exact ⟨_, rfl⟩
  rw [if_neg hss]
  by_cases hcc : canConvert (typeOf f.val) (typeOf t.val) = true
  · rw [if_pos hcc, if_neg (by simp [hro, hts])]
    exact ⟨_, rfl⟩
  · rw [if_neg (by simpa using hcc)]
    exact ⟨_, rfl⟩

/-- The engine never panics when the (indirected) destination is settable
or invalid and the (indirected) source was not derived from an unexported
field. -/
theorem copyValue_no_panic (cfg : Config) (fromH toH : Handle)
    (hro : (indirectH fromH).ro = false)
    (ht : (indirectH toH).settable = true ∨ (indirectH toH).val = .invalid) :
    ∃ out, CopyValue cfg fromH toH = .ok out :=
  copyValueCore_ok cfg _ _ toH.val hro ht

theorem stringDestConv_false (cfg : Config) (f t : Handle) (orig : RValue) (r : RValue)
    (h : stringDestConv cfg f t orig = .ok (false, r)) : r = orig := by
  unfold stringDestConv at h
  revert h
  split <;> intro h
  · simp [writeRes] at h
    split at h <;> simp_all
  · simp [writeRes] at h
    split at h <;> simp_all
  · simp [writeRes] at h
    split at h <;> simp_all
  · split at h
    · simp_all
    · simp [writeRes] at h
      split at h <;> simp_all
  · simp_all

theorem stringSrcConv_false (cfg : Config) (s : String) (t : Handle) (orig : RValue) (r : RValue)
    (h : stringSrcConv cfg s t orig = .ok (false, r)) : r = orig := by
  unfold stringSrcConv at h
  revert h
  split <;> intro h
  · split at h
    · simp [writeRes] at h
      split at h <;> simp_all
    · simp_all
  · split at h
    · simp [writeRes] at h
      split at h <;> simp_all
    · simp_all
  · split at h
    · simp [writeRes] at h
      split at h <;> simp_all
    · simp_all
  · split at h
    · split at h <;> simp_all
    · simp_all
  · simp_all

/-- When the engine reports false, no write happened: the destination
argument's value is returned unchanged. -/
theorem copyValue_false_no_write (cfg : Config) (fromH toH : Handle) (r : RValue)
    (h : CopyValue cfg fromH toH = .ok (false, r)) : r = toH.val := by
  unfold CopyValue copyValueCore at h
  revert h
  split <;> intro h
  · simp_all
  · split at h
    · simp_all
    · split at h
      · split at h <;> simp_all
      · split at h
        · exact stringDestConv_false _ _ _ _ _ h
        · split at h
          · revert h
            split <;> intro h
            · exact stringSrcConv_false _ _ _ _ _ h
            · simp_all
          · split at h
            · split at h <;> simp_all
            · simp_all

theorem reprInt_int64_range (w : IntW) (n : Int) (hn : reprInt w n) :
    -(2 ^ 63 : Int) ≤ n ∧ n ≤ 2 ^ 63 - 1 := by
  cases w <;> simp only [reprInt, bits] at hn <;> norm_num at hn ⊢ <;> omega

theorem reprUint_lt64 (w : IntW) (m : Nat) (hm : reprUint w m) : m < 2 ^ 64 := by
  cases w <;> simp only [reprUint, bits] at hm <;> norm_num at hm ⊢ <;> omega

theorem parseBoolGo_formatBool (x : Bool) : parseBoolGo (formatBool x) = some x := by
  cases x <;> decide

/-- C1: in `CopyValue`, with a string source and a `time.Time`
destination, a successful parse with the configured layout and timezone
writes the timestamp and returns true, and a failed parse performs no
write to the destination yet still returns true. -/
theorem copyValue_string_to_time (cfg : Config) (src : String) (t0 : DTime) :
    (∀ x, parseInLocation cfg.dateTimeLayout src (getTimeZone cfg) = some x →
      CopyValue cfg ⟨.base (.s src), false, false⟩ ⟨.base (.tm t0), true, false⟩ =
        .ok (true, .base (.tm x))) ∧
    (parseInLocation cfg.dateTimeLayout src (getTimeZone cfg) = none →
      CopyValue cfg ⟨.base (.s src), false, false⟩ ⟨.base (.tm t0), true, false⟩ =
        .ok (true, .base (.tm t0))) := by
  constructor
  · intro x hx
    simp [CopyValue, copyValueCore, indirectH, indirectVal, typeOf, stypeOf, stringSrcConv,
      hx, setInner]
  · intro hx
    simp [CopyValue, copyValueCore, indirectH, indirectVal, typeOf, stypeOf, stringSrcConv, hx]

/-- Witness for C1: `"2026-01-02 03:04:05"` parses in the default
configuration (Asia/Shanghai, +08:00) and is written; `"x"` fails to
parse, nothing is written, and the result is still true. -/
theorem copyValue_string_to_time_witness :
    CopyValue defaultConfig ⟨.base (.s "2026-01-02 03:04:05"), false, false⟩
        ⟨.base (.tm ⟨0⟩), true, false⟩ = .ok (true, .base (.tm ⟨1767294245⟩)) ∧
    CopyValue defaultConfig ⟨.base (.s "x"), false, false⟩
        ⟨.base (.tm ⟨7⟩), true, false⟩ = .ok (true, .base (.tm ⟨7⟩)) :=
  ⟨(copyValue_string_to_time defaultConfig "2026-01-02 03:04:05" ⟨0⟩).1 ⟨1767294245⟩ (by decide),
   (copyValue_string_to_time defaultConfig "x" ⟨7⟩).2 (by decide)⟩

/-- C5: for the scalar kinds with a string coercion (bool, the signed and
the unsigned integer kinds), converting the scalar to a string and the
string back to the original kind reproduces the value, for representable
inputs. -/
theorem copyValue_scalar_string_roundtrip (cfg : Config) (w wu : IntW) (n : Int) (m : Nat)
    (x : Bool) (hn : reprInt w n) (hm : reprUint wu m) :
    (CopyValue cfg ⟨.base (.i w n), false, false⟩ ⟨.base (.s ""), true, false⟩ =
        .ok (true, .base (.s (formatInt n))) ∧
      CopyValue cfg ⟨.base (.s (formatInt n)), false, false⟩ ⟨.base (.i w 0), true, false⟩ =
        .ok (true, .base (.i w n))) ∧
    (CopyValue cfg ⟨.base (.u wu m), false, false⟩ ⟨.base (.s ""), true, false⟩ =
        .ok (true, .base (.s (formatNat m))) ∧
      CopyValue cfg ⟨.base (.s (formatNat m)), false, false⟩ ⟨.base (.u wu 0), true, false⟩ =
        .ok (true, .base (.u wu m))) ∧
    (CopyValue cfg ⟨.base (.b x), false, false⟩ ⟨.base (.s ""), true, false⟩ =
        .ok (true, .base (.s (formatBool x))) ∧
      CopyValue cfg ⟨.base (.s (formatBool x)), false, false⟩ ⟨.base (.b false), true, false⟩ =
        .ok (true, .base (.b x))) := by
  have hr := reprInt_int64_range w n hn
  have hpi : parseIntGo (formatInt n) = some n := parseIntGo_formatInt n hr.1 hr.2
  have hpu : parseUintGo (formatNat m) = some m := parseUintGo_formatNat m (reprUint_lt64 wu m hm)
  refine ⟨⟨?_, ?_⟩, ⟨?_, ?_⟩, ?_, ?_⟩
  · simp [CopyValue, copyValueCore, indirectH, indirectVal, typeOf, stypeOf, stringDestConv,
      writeRes, setInner]
  · simp [CopyValue, copyValueCore, indirectH, indirectVal, typeOf, stypeOf, stringSrcConv,
      hpi, writeRes, setInner, truncInt_of_repr w n hn]
  · simp [CopyValue, copyValueCore, indirectH, indirectVal, typeOf, stypeOf, stringDestConv,
      writeRes, setInner]
  · simp [CopyValue, copyValueCore, indirectH, indirectVal, typeOf, stypeOf, stringSrcConv,
      hpu, writeRes, setInner, Nat.mod_eq_of_lt hm]
  · simp [CopyValue, copyValueCore, indirectH, indirectVal, typeOf, stypeOf, stringDestConv,
      writeRes, setInner]
  · simp [CopyValue, copyValueCore, indirectH, indirectVal, typeOf, stypeOf, stringSrcConv,
      parseBoolGo_formatBool, writeRes, setInner]

/-- Witness for C5 at 42 (int), 42 (uint) and true. -/
theorem copyValue_scalar_string_roundtrip_witness :
    (CopyValue defaultConfig ⟨.base (.i .i 42), false, false⟩ ⟨.base (.s ""), true, false⟩ =
        .ok (true, .base (.s (formatInt 42))) ∧
      CopyValue defaultConfig ⟨.base (.s (formatInt 42)), false, false⟩
          ⟨.base (.i .i 0), true, false⟩ = .ok (true, .base (.i .i 42))) ∧
    (CopyValue defaultConfig ⟨.base (.u .i 42), false, false⟩ ⟨.base (.s ""), true, false⟩ =
        .ok (true, .base (.s (formatNat 42))) ∧
      CopyValue defaultConfig ⟨.base (.s (formatNat 42)), false, false⟩
          ⟨.base (.u .i 0), true, false⟩ = .ok (true, .base (.u .i 42))) ∧
    (CopyValue defaultConfig ⟨.base (.b true), false, false⟩ ⟨.base (.s ""), true, false⟩ =
        .ok (true, .base (.s (formatBool true))) ∧
      CopyValue defaultConfig ⟨.base (.s (formatBool true)), false, false⟩
          ⟨.base (.b false), true, false⟩ = .ok (true, .base (.b true))) :=
  copyValue_scalar_string_roundtrip defaultConfig .i .i 42 42 true
    (by constructor <;> norm_num [bits]) (by norm_num [reprUint, bits])

/-- C7 counterexample: the engine panics rather than no-ops on an
unsettable destination when the pair is directly assignable — `Set` is
reached without a `CanSet` check. -/
theorem copyValue_unsettable_panics :
    CopyValue defaultConfig ⟨.base (.i .i 1), false, false⟩ ⟨.base (.i .i 2), false, false⟩ =
      .error .panicked := by
  decide

/-- C7 as amended: `CopyValue` never raises provided the indirected
destination is settable (or indirects to the invalid value) and the
source value was not derived from an unexported field; and whenever it
reports false, no write was performed. -/
theorem copyValue_no_raise_amended (cfg : Config) (fromH toH : Handle)
    (hro : (indirectH fromH).ro = false)
    (ht : (indirectH toH).settable = true ∨ (indirectH toH).val = .invalid) :
    (∃ out, CopyValue cfg fromH toH = .ok out) ∧
    (∀ r, CopyValue cfg fromH toH = .ok (false, r) → r = toH.val) :=
  ⟨copyValue_no_panic cfg fromH toH hro ht,
   fun r h => copyValue_false_no_write cfg fromH toH r h⟩

/-- Witness for the amended C7: an unconvertible pair (time.Time source,
bool destination) runs without a panic. -/
theorem copyValue_no_raise_amended_witness :
    (∃ out, CopyValue defaultConfig ⟨.base (.tm ⟨0⟩), false, false⟩
        ⟨.base (.b false), true, false⟩ = .ok out) ∧
    (∀ r, CopyValue defaultConfig ⟨.base (.tm ⟨0⟩), false, false⟩
        ⟨.base (.b false), true, false⟩ = .ok (false, r) → r = .base (.b false)) :=
  copyValue_no_raise_amended defaultConfig ⟨.base (.tm ⟨0⟩), false, false⟩
    ⟨.base (.b false), true, false⟩ (by decide) (.inl (by decide))

/-- C8: the process-wide temporal configuration defaults to the layout
`"2006-01-02 15:04:05"` (`time.DateTime`) and the zone name
`"Asia/Shanghai"`, and `getTimeZone` resolves the configured name at call
time, falling back to UTC whenever the name fails to resolve. -/
theorem temporal_config_defaults_and_fallback :
    DateTimeLayout = "2006-01-02 15:04:05" ∧ TimeZone = "Asia/Shanghai" ∧
    (∀ cfg : Config, ∀ l, cfg.loadLocation cfg.timeZone = some l → getTimeZone cfg = l) ∧
    (∀ cfg : Config, cfg.loadLocation cfg.timeZone = none → getTimeZone cfg = utcLoc) := by
  refine ⟨rfl, rfl, ?_, ?_⟩
  · intro cfg l h
    simp [getTimeZone, h]
  · intro cfg h
    simp [getTimeZone, h]

/-- Witness for C8: the default name resolves to Asia/Shanghai (+08:00);
an unresolvable name falls back to UTC. -/
theorem temporal_config_defaults_and_fallback_witness :
    getTimeZone defaultConfig = ⟨"Asia/Shanghai", 28800⟩ ∧
    getTimeZone ⟨DateTimeLayout, "Mars/Olympus", goLoadLocation⟩ = utcLoc :=
  ⟨temporal_config_defaults_and_fallback.2.2.1 defaultConfig ⟨"Asia/Shanghai", 28800⟩ (by decide),
   temporal_config_defaults_and_fallback.2.2.2 ⟨DateTimeLayout, "Mars/Olympus", goLoadLocation⟩
     (by decide)⟩

/-- C9: a string source into an integer destination parses at bit size 0
(64-bit) and then converts, truncating to the destination width — a value
that fits 64 bits but overflows a narrower destination is written reduced
modulo `2^w`, with a true result, instead of being skipped.  In
particular `"300"` into `int8` writes 44 and returns true. -/
theorem copyValue_string_int_truncates (cfg : Config) (src : String) (w wu : IntW)
    (t0 : Int) (u0 : Nat) :
    (∀ v : Int, parseIntGo src = some v →
      CopyValue cfg ⟨.base (.s src), false, false⟩ ⟨.base (.i w t0), true, false⟩ =
        .ok (true, .base (.i w (truncInt w v)))) ∧
    (∀ v : Nat, parseUintGo src = some v →
      CopyValue cfg ⟨.base (.s src), false, false⟩ ⟨.base (.u wu u0), true, false⟩ =
        .ok (true, .base (.u wu (v % 2 ^ bits wu)))) ∧
    CopyValue cfg ⟨.base (.s "300"), false, false⟩ ⟨.base (.i .i8 0), true, false⟩ =
      .ok (true, .base (.i .i8 44)) := by
  refine ⟨?_, ?_, ?_⟩
  · intro v hv
    simp [CopyValue, copyValueCore, indirectH, indirectVal, typeOf, stypeOf, stringSrcConv,
      hv, writeRes, setInner]
  · intro v hv
    simp [CopyValue, copyValueCore, indirectH, indirectVal, typeOf, stypeOf, stringSrcConv,
      hv, writeRes, setInner]
  · have hv : parseIntGo "300" = some 300 := by decide
    simp [CopyValue, copyValueCore, indirectH, indirectVal, typeOf, stypeOf, stringSrcConv,
      hv, writeRes, setInner]
    decide

/-- Witness for C9: `"300"` parses to 300 and lands as `300 - 256 = 44`
in an `int8` destination, and as `300 mod 256 = 44` in a `uint8` one. -/
theorem copyValue_string_int_truncates_witness :
    CopyValue defaultConfig ⟨.base (.s "300"), false, false⟩ ⟨.base (.i .i8 0), true, false⟩ =
      .ok (true, .base (.i .i8 (truncInt .i8 300))) ∧
    CopyValue defaultConfig ⟨.base (.s "300"), false, false⟩ ⟨.base (.u .i8 0), true, false⟩ =
      .ok (true, .base (.u .i8 (300 % 2 ^ bits .i8))) :=
  ⟨(copyValue_string_int_truncates defaultConfig "300" .i8 .i8 0 0).1 300 (by decide),
   (copyValue_string_int_truncates defaultConfig "300" .i8 .i8 0 0).2.1 300 (by decide)⟩

/- ### Driver lemmas: slices -/

theorem except_bind_ok {ε α β : Type} (a : α) (f : α → Except ε β) :
    (Except.ok a >>= f) = f a := rfl

theorem except_pure_bind {ε α β : Type} (a : α) (f : α → Except ε β) :
    ((pure a : Except ε α) >>= f) = f a := rfl

theorem sliceCopyFold_eq (cfg : Config) (eD : SType) (xs : List SVal) :
    ∀ ys, sliceCopyFold cfg eD xs ys = .ok (ys ++ xs.filterMap (scalarConv cfg eD)) := by
  induction xs with
  | nil =>
    intro ys
    simp only [sliceCopyFold, List.foldlM_nil, List.filterMap_nil, List.append_nil]
    rfl
  | cons x xs ih =>
    intro ys
    obtain ⟨out, hout⟩ := copyValue_no_panic cfg ⟨.base x, false, false⟩
      ⟨.base (zeroS eD), true, false⟩ (by simp [indirectH, indirectVal])
      (Or.inl (by simp [indirectH, indirectVal]))
    rcases out with ⟨b, r⟩
    have hsc : scalarConv cfg eD x = if b then some (asSVal (zeroS eD) r) else none := by
      cases b <;> simp [scalarConv, hout]
    simp only [sliceCopyFold] at ih ⊢
    rw [List.foldlM_cons, hout, except_bind_ok, except_pure_bind]
    cases b
    · rw [ih]
      simp [List.filterMap_cons, hsc]
    · rw [ih]
      simp [List.filterMap_cons, hsc]

/-- C3: a sequence→sequence copy converts element-wise into fresh zero
slots of the destination element type, appends only the elements the
engine accepts, silently drops the rest — so the appended part is the
`filterMap` of the per-slot conversion, its length is at most the source
length — and `["1","x","3"]` into a sequence of `int` yields `[1, 3]`. -/
theorem copy_slice_elementwise (cfg : Config) :
    (∀ (eS eD : SType) (P : RType) (xs ys : List SVal),
      Copy cfg (.sliceV eS xs) (.ptrSome P (.sliceV eD ys)) =
        .ok (.ptrSome P (.sliceV eD (ys ++ xs.filterMap (scalarConv cfg eD)))) ∧
      (xs.filterMap (scalarConv cfg eD)).length ≤ xs.length) ∧
    Copy defaultConfig (.sliceV .sString [.s "1", .s "x", .s "3"])
        (.ptrSome (.sliceT (.sInt .i)) (.sliceV (.sInt .i) [])) =
      .ok (.ptrSome (.sliceT (.sInt .i)) (.sliceV (.sInt .i) [.i .i 1, .i .i 3])) := by
  constructor
  · intro eS eD P xs ys
    constructor
    · simp [Copy, indirectH, indirectVal, sliceCopyFold_eq, except_bind_ok, setInner, isPtrVal]
    · exact List.length_filterMap_le _ _
  · decide

/- ### Driver lemmas: maps -/

theorem except_bind_error {ε α β : Type} (e : ε) (f : α → Except ε β) :
    (Except.error e >>= f : Except ε β) = .error e := rfl

theorem except_pure_eq {ε α : Type} (a : α) : (pure a : Except ε α) = .ok a := rfl

theorem mem_mapInsert (l : List (SVal × SVal)) (k v : SVal) :
    ∀ kv ∈ mapInsert l k v, kv = (k, v) ∨ kv ∈ l := by
  induction l with
  | nil =>
    intro kv hkv
    simpa [mapInsert] using hkv
  | cons p rest ih =>
    intro kv hkv
    by_cases hp : p.1 = k
    · simp only [mapInsert, if_pos hp, List.mem_cons] at hkv
      rcases hkv with h | h
      · exact .inl h
      · exact .inr (by simp [h])
    · simp only [mapInsert, if_neg hp, List.mem_cons] at hkv
      rcases hkv with h | h
      · exact .inr (by simp [h])
      · rcases ih kv h with h1 | h1
        · exact .inl h1
        · exact .inr (by simp [h1])

/-- Membership after an `Except`-valued fold whose steps only ever add
pairs drawn from `conv` of the step's input. -/
theorem foldlM_mem_closure {α : Type} (step : List (SVal × SVal) → α → Except GoPanic (List (SVal × SVal)))
    (conv : α → Option (SVal × SVal)) (l : List α)
    (h : ∀ acc a acc', a ∈ l → step acc a = .ok acc' →
      ∀ kv ∈ acc', kv ∈ acc ∨ conv a = some kv) :
    ∀ ds res, l.foldlM step ds = .ok res → ∀ kv ∈ res, kv ∈ ds ∨ ∃ a ∈ l, conv a = some kv := by
  induction l with
  | nil =>
    intro ds res hres kv hkv
    rw [List.foldlM_nil, except_pure_eq] at hres
    cases hres
    exact .inl hkv
  | cons a l ih =>
    intro ds res hres kv hkv
    rw [List.foldlM_cons] at hres
    cases hstep : step ds a with
    | error e =>
      rw [hstep, except_bind_error] at hres
      exact Except.noConfusion hres
    | ok acc' =>
      rw [hstep, except_bind_ok] at hres
      have hstep' : ∀ acc a' acc', a' ∈ l → step acc a' = .ok acc' →
          ∀ kv ∈ acc', kv ∈ acc ∨ conv a' = some kv :=
        fun acc a' acc' ha' => h acc a' acc' (by simp [ha'])
      rcases ih hstep' acc' res hres kv hkv with hin | ⟨a', ha', hc⟩
      · rcases h ds a acc' (by simp) hstep kv hin with h1 | h2
        · exact .inl h1
        · exact .inr ⟨a, by simp, h2⟩
      · exact .inr ⟨a', by simp [ha'], hc⟩

theorem mapPairStep_mem (cfg : Config) (kD vD : SType) (acc : List (SVal × SVal))
    (p : SVal × SVal) (acc' : List (SVal × SVal)) (h : mapPairStep cfg kD vD acc p = .ok acc') :
    ∀ kv ∈ acc', kv ∈ acc ∨ mapPairConv cfg kD vD p = some kv := by
  intro kv hkv
  unfold mapPairStep at h
  cases hk : CopyValue cfg ⟨.base p.1, false, false⟩ ⟨.base (zeroS kD), true, false⟩ with
  | error e =>
    rw [hk, except_bind_error] at h
    exact Except.noConfusion h
  | ok rk =>
    rw [hk, except_bind_ok] at h
    rcases rk with ⟨bk, rk⟩
    cases bk with
    | false =>
      rw [if_pos rfl, except_pure_eq] at h
      cases h
      exact .inl hkv
    | true =>
      rw [if_neg (by simp)] at h
      cases hv : CopyValue cfg ⟨.base p.2, false, false⟩ ⟨.base (zeroS vD), true, false⟩ with
      | error e =>
        rw [hv, except_bind_error] at h
        exact Except.noConfusion h
      | ok rv =>
        rw [hv, except_bind_ok] at h
        rcases rv with ⟨bv, rv⟩
        cases bv with
        | false =>
          rw [if_pos rfl, except_pure_eq] at h
          cases h
          exact .inl hkv
        | true =>
          rw [if_neg (by simp), except_pure_eq] at h
          cases h
          rcases mem_mapInsert acc _ _ kv hkv with h1 | h1
          · refine .inr ?_
            rw [mapPairConv]
            simp [scalarConv, hk, hv, h1]
          · exact .inl h1

theorem structMapStep_mem (cfg : Config) (kD vD : SType) (fsS : List Fld)
    (acc : List (SVal × SVal)) (fld : Fld) (acc' : List (SVal × SVal))
    (h : structMapStep cfg kD vD fsS acc fld = .ok acc') :
    ∀ kv ∈ acc', kv ∈ acc ∨ structMapPairConv cfg kD vD fsS fld = some kv := by
  intro kv hkv
  unfold structMapStep at h
  cases hk : CopyValue cfg ⟨.base (.s fld.1), false, false⟩ ⟨.base (zeroS kD), true, false⟩ with
  | error e =>
    rw [hk, except_bind_error] at h
    exact Except.noConfusion h
  | ok rk =>
    rw [hk, except_bind_ok] at h
    rcases rk with ⟨bk, rk⟩
    cases bk with
    | false =>
      rw [if_pos rfl, except_pure_eq] at h
      cases h
      exact .inl hkv
    | true =>
      rw [if_neg (by simp)] at h
      simp only [] at h
      cases hv : CopyValue cfg
          ⟨FVal.toR ((findField fsS fld.1).getD fld).2.2, false,
            !((findField fsS fld.1).getD fld).2.1⟩
          ⟨.base (zeroS vD), true, false⟩ with
      | error e =>
        rw [hv, except_bind_error] at h
        exact Except.noConfusion h
      | ok rv =>
        rw [hv, except_bind_ok] at h
        rcases rv with ⟨bv, rv⟩
        cases bv with
        | false =>
          rw [if_pos rfl, except_pure_eq] at h
          cases h
          exact .inl hkv
        | true =>
          rw [if_neg (by simp), except_pure_eq] at h
          cases h
          rcases mem_mapInsert acc _ _ kv hkv with h1 | h1
          · refine .inr ?_
            rw [structMapPairConv]
            simp [scalarConv, fieldValConv, hk, hv, h1]
          · exact .inl h1

theorem copy_map_map_eq (cfg : Config) (kS vS kD vD : SType) (P : RType)
    (es ds : List (SVal × SVal)) :
    Copy cfg (.mapV kS vS es) (.ptrSome P (.mapV kD vD ds)) =
      mapCopyFold cfg kD vD es ds >>= fun final => pure (.ptrSome P (.mapV kD vD final)) := by
  simp [Copy, indirectH, indirectVal, isPtrVal, setInner]

theorem copy_struct_map_eq (cfg : Config) (nm : String) (fsS : List Fld) (kD vD : SType)
    (P : RType) (ds : List (SVal × SVal)) :
    Copy cfg (.structV nm fsS) (.ptrSome P (.mapV kD vD ds)) =
      structMapFold cfg kD vD fsS ds >>= fun final => pure (.ptrSome P (.mapV kD vD final)) := by
  simp [Copy, indirectH, indirectVal, isPtrVal, setInner]

/-- C2: for map→map and struct→map copies, an entry appears in the
destination mapping only when both the key and the value conversion
succeed; an entry of the final destination mapping either was already
present or is the successful two-sided conversion of one source pair
(field name/value).  No key-only or value-only residue can exist. -/
theorem copy_mapping_entry_atomicity (cfg : Config) :
    (∀ (kS vS kD vD : SType) (P : RType) (es ds res : List (SVal × SVal)),
      Copy cfg (.mapV kS vS es) (.ptrSome P (.mapV kD vD ds)) =
        .ok (.ptrSome P (.mapV kD vD res)) →
      ∀ kv ∈ res, kv ∈ ds ∨ ∃ p ∈ es, mapPairConv cfg kD vD p = some kv) ∧
    (∀ (nm : String) (fsS : List Fld) (kD vD : SType) (P : RType)
        (ds res : List (SVal × SVal)),
      Copy cfg (.structV nm fsS) (.ptrSome P (.mapV kD vD ds)) =
        .ok (.ptrSome P (.mapV kD vD res)) →
      ∀ kv ∈ res, kv ∈ ds ∨ ∃ fld ∈ fsS, structMapPairConv cfg kD vD fsS fld = some kv) := by
  constructor
  · intro kS vS kD vD P es ds res hcopy kv hkv
    rw [copy_map_map_eq] at hcopy
    cases hf : mapCopyFold cfg kD vD es ds with
    | error e =>
      rw [hf, except_bind_error] at hcopy
      exact Except.noConfusion hcopy
    | ok final =>
      rw [hf, except_bind_ok, except_pure_eq] at hcopy
      have hfr : final = res := by
        simpa using hcopy
      subst hfr
      exact foldlM_mem_closure (mapPairStep cfg kD vD) (mapPairConv cfg kD vD) es
        (fun acc p acc' _ hstep => mapPairStep_mem cfg kD vD acc p acc' hstep) ds final hf kv hkv
  · intro nm fsS kD vD P ds res hcopy kv hkv
    rw [copy_struct_map_eq] at hcopy
    cases hf : structMapFold cfg kD vD fsS ds with
    | error e =>
      rw [hf, except_bind_error] at hcopy
      exact Except.noConfusion hcopy
    | ok final =>
      rw [hf, except_bind_ok, except_pure_eq] at hcopy
      have hfr : final = res := by
        simpa using hcopy
      subst hfr
      exact foldlM_mem_closure (structMapStep cfg kD vD fsS)
        (structMapPairConv cfg kD vD fsS) fsS
        (fun acc fld acc' _ hstep => structMapStep_mem cfg kD vD fsS acc fld acc' hstep)
        ds final hf kv hkv

/-- Witness for C2: copying `{"1": "x", "2": "7"}` into a `map[int]int`
yields exactly `{2: 7}`, and the entry present is accounted for by a
source pair whose key and value both converted. -/
theorem copy_mapping_entry_atomicity_witness :
    ((SVal.i .i 2, SVal.i .i 7) ∈ ([] : List (SVal × SVal)) ∨
      ∃ p ∈ [(SVal.s "1", SVal.s "x"), (SVal.s "2", SVal.s "7")],
        mapPairConv defaultConfig (.sInt .i) (.sInt .i) p = some (SVal.i .i 2, SVal.i .i 7)) :=
  (copy_mapping_entry_atomicity defaultConfig).1 .sString .sString (.sInt .i) (.sInt .i)
    (.mapT (.sInt .i) (.sInt .i)) [(.s "1", .s "x"), (.s "2", .s "7")] []
    [(.i .i 2, .i .i 7)] (by decide) (.i .i 2, .i .i 7) (by decide)

/- ### Driver lemmas: structs -/

theorem fieldsRel_refl (ns : List String) (g : Fld) : fieldsRel ns g g :=
  ⟨rfl, rfl, fun _ => rfl⟩

theorem fieldsRel_trans (ns : List String) (a b c : Fld) (h1 : fieldsRel ns a b)
    (h2 : fieldsRel ns b c) : fieldsRel ns a c := by
  refine ⟨h2.1.trans h1.1, h2.2.1.trans h1.2.1, fun hc => ?_⟩
  have hb : b = a := h1.2.2 hc
  subst hb
  exact h2.2.2 hc

theorem forall₂_fieldsRel_refl (ns : List String) (l : List Fld) :
    List.Forall₂ (fieldsRel ns) l l := by
  induction l with
  | nil => exact .nil
  | cons g rest ih => exact .cons (fieldsRel_refl ns g) ih

theorem forall₂_fieldsRel_trans (ns : List String) :
    ∀ {l1 l2 l3 : List Fld}, List.Forall₂ (fieldsRel ns) l1 l2 →
      List.Forall₂ (fieldsRel ns) l2 l3 → List.Forall₂ (fieldsRel ns) l1 l3 := by
  intro l1 l2 l3 h12
  induction h12 generalizing l3 with
  | nil =>
    intro h23
    cases h23
    exact .nil
  | cons hab h ih =>
    intro h23
    cases h23 with
    | cons hbc h23' => exact .cons (fieldsRel_trans ns _ _ _ hab hbc) (ih h23')

theorem findField_updateField (acc : List Fld) (n : String) (nv : FVal) :
    findField (updateField acc n nv) n = (findField acc n).map fun g => (g.1, g.2.1, nv) := by
  induction acc with
  | nil => simp [findField, updateField]
  | cons g rest ih =>
    by_cases hg : g.1 = n
    · simp [findField, updateField, hg]
    · simp [findField, updateField, hg, ih]

theorem updateField_forall₂ (ns : List String) (acc : List Fld) (fname : String) (nv : FVal)
    (hin : fname ∈ ns) (hexp : ∀ g, findField acc fname = some g → g.2.1 = true) :
    List.Forall₂ (fieldsRel ns) acc (updateField acc fname nv) := by
  induction acc with
  | nil => exact .nil
  | cons g rest ih =>
    by_cases hg : g.1 = fname
    · rw [updateField, if_pos hg]
      refine .cons ⟨rfl, rfl, fun hc => ?_⟩ (forall₂_fieldsRel_refl ns rest)
      rcases hc with hc | hc
      · exact absurd (hg ▸ hin) hc
      · have : g.2.1 = true := hexp g (by rw [findField, if_pos hg])
        rw [this] at hc
        exact absurd hc (by simp)
    · rw [updateField, if_neg hg]
      refine .cons (fieldsRel_refl ns g) (ih ?_)
      intro g' hg'
      exact hexp g' (by rw [findField, if_neg hg]; exact hg')

theorem structFieldInto_rel (ns : List String) (cfg : Config) (src : Handle) (acc : List Fld)
    (fname : String) (acc' : List Fld) (hin : fname ∈ ns)
    (h : structFieldInto cfg src acc fname = .ok acc') :
    List.Forall₂ (fieldsRel ns) acc acc' := by
  unfold structFieldInto at h
  cases hf : findField acc fname with
  | none =>
    rw [hf, except_pure_eq] at h
    cases h
    exact forall₂_fieldsRel_refl ns acc
  | some g =>
    rw [hf] at h
    simp only [] at h
    by_cases hflag : g.2.1 = false
    · rw [if_pos hflag, except_pure_eq] at h
      cases h
      exact forall₂_fieldsRel_refl ns acc
    · rw [if_neg hflag] at h
      have hexp : ∀ g', findField acc fname = some g' → g'.2.1 = true := by
        intro g' hg'
        rw [hf] at hg'
        cases hg'
        simpa using hflag
      have rel1 := updateField_forall₂ ns acc fname (allocIfNilPtr g.2.2) hin hexp
      cases hcv : CopyValue cfg src ⟨FVal.toR (allocIfNilPtr g.2.2), true, false⟩ with
      | error e =>
        rw [hcv, except_bind_error] at h
        exact Except.noConfusion h
      | ok r =>
        rw [hcv, except_bind_ok, except_pure_eq] at h
        cases h
        refine forall₂_fieldsRel_trans ns rel1 ?_
        refine updateField_forall₂ ns _ fname _ hin ?_
        intro g' hg'
        rw [findField_updateField, hf] at hg'
        cases hg'
        simpa using hflag

theorem structStructFold_rel (cfg : Config) (fsS : List Fld) (ns : List String) :
    ∀ (l : List Fld) (acc res : List Fld), (∀ fld ∈ l, fld.1 ∈ ns) →
      l.foldlM (structStructStep cfg fsS) acc = .ok res →
      List.Forall₂ (fieldsRel ns) acc res := by
  intro l
  induction l with
  | nil =>
    intro acc res _ hres
    rw [List.foldlM_nil, except_pure_eq] at hres
    cases hres
    exact forall₂_fieldsRel_refl ns acc
  | cons fld l ih =>
    intro acc res hns hres
    rw [List.foldlM_cons] at hres
    cases hstep : structStructStep cfg fsS acc fld with
    | error e =>
      rw [hstep, except_bind_error] at hres
      exact Except.noConfusion hres
    | ok acc' =>
      rw [hstep, except_bind_ok] at hres
      have rel1 : List.Forall₂ (fieldsRel ns) acc acc' :=
        structFieldInto_rel ns cfg _ acc fld.1 acc' (hns fld (by simp)) hstep
      exact forall₂_fieldsRel_trans ns rel1
        (ih acc' res (fun f hf => hns f (by simp [hf])) hres)

theorem copy_struct_struct_eq (cfg : Config) (nS nD : String) (fsS fsD : List Fld)
    (P : RType) :
    Copy cfg (.structV nS fsS) (.ptrSome P (.structV nD fsD)) =
      structStructFold cfg fsS fsD >>= fun final => pure (.ptrSome P (.structV nD final)) := by
  simp [Copy, indirectH, indirectVal, isPtrVal, setInner]

/-- C4: a struct→struct copy is driven by the source's fields and matched
by exact name: every destination field whose name has no source match, or
which is not settable, keeps its caller-provided value (names and
exported flags are preserved positionally).  Concretely: name matching is
positional-order independent (`{Extra, Name}` into `{Name, Other}` sets
only `Name`, leaving `Other` at its caller value); a matched nil
pointer-typed destination field is allocated zero-initialized before
conversion and receives the converted value; and when the conversion into
an allocated pointer field fails, the allocation remains, holding the
zero value. -/
theorem copy_struct_by_name (cfg : Config) :
    (∀ (nS nD : String) (fsS fsD : List Fld) (P : RType) (res : List Fld),
      Copy cfg (.structV nS fsS) (.ptrSome P (.structV nD fsD)) =
        .ok (.ptrSome P (.structV nD res)) →
      List.Forall₂ (fieldsRel (fsS.map fun f => f.1)) fsD res) ∧
    Copy defaultConfig
        (.structV "S" [("Extra", true, .plain (.i .i 1)), ("Name", true, .plain (.s "A"))])
        (.ptrSome (.structT "D" [("Name", true, .plain .sString), ("Other", true, .plain (.sInt .i))])
          (.structV "D" [("Name", true, .plain (.s "")), ("Other", true, .plain (.i .i 0))])) =
      .ok (.ptrSome (.structT "D" [("Name", true, .plain .sString), ("Other", true, .plain (.sInt .i))])
        (.structV "D" [("Name", true, .plain (.s "A")), ("Other", true, .plain (.i .i 0))])) ∧
    Copy defaultConfig (.structV "S" [("P", true, .plain (.s "5"))])
        (.ptrSome (.structT "D" [("P", true, .ptrF (.sInt .i))])
          (.structV "D" [("P", true, .ptr (.sInt .i) none)])) =
      .ok (.ptrSome (.structT "D" [("P", true, .ptrF (.sInt .i))])
        (.structV "D" [("P", true, .ptr (.sInt .i) (some (.i .i 5)))])) ∧
    Copy defaultConfig (.structV "S" [("P", true, .plain (.tm ⟨0⟩))])
        (.ptrSome (.structT "D" [("P", true, .ptrF .sBool)])
          (.structV "D" [("P", true, .ptr .sBool none)])) =
      .ok (.ptrSome (.structT "D" [("P", true, .ptrF .sBool)])
        (.structV "D" [("P", true, .ptr .sBool (some (.b false)))])) := by
  refine ⟨?_, by decide, by decide, by decide⟩
  intro nS nD fsS fsD P res hcopy
  rw [copy_struct_struct_eq] at hcopy
  cases hf : structStructFold cfg fsS fsD with
  | error e =>
    rw [hf, except_bind_error] at hcopy
    exact Except.noConfusion hcopy
  | ok final =>
    rw [hf, except_bind_ok, except_pure_eq] at hcopy
    have hfr : final = res := by
      simpa using hcopy
    subst hfr
    exact structStructFold_rel cfg fsS (fsS.map fun f => f.1) fsS fsD final
      (fun fld hmem => List.mem_map_of_mem _ hmem) hf

/-- Witness for C4: the concrete `{Extra, Name} → {Name, Other}` copy
satisfies the field relation — `Other` (no source match) is untouched. -/
theorem copy_struct_by_name_witness :
    List.Forall₂ (fieldsRel (["Extra", "Name"]))
      [("Name", true, FVal.plain (.s "")), ("Other", true, FVal.plain (.i .i 0))]
      [("Name", true, FVal.plain (.s "A")), ("Other", true, FVal.plain (.i .i 0))] :=
  (copy_struct_by_name defaultConfig).1 "S" "D"
    [("Extra", true, .plain (.i .i 1)), ("Name", true, .plain (.s "A"))]
    [("Name", true, .plain (.s "")), ("Other", true, .plain (.i .i 0))]
    (.structT "D" [("Name", true, .plain .sString), ("Other", true, .plain (.sInt .i))])
    [("Name", true, .plain (.s "A")), ("Other", true, .plain (.i .i 0))]
    (by decide)

/- ### Driver safety: panics and their absence -/

theorem indirectVal_ro_false (a : RValue) : ∀ s, (indirectVal a s false).ro = false := by
  induction a with
  | ptrSome ty v ih => intro s; rw [indirectVal]; exact ih true
  | ptrNil ty => intro s; rfl
  | invalid => intro s; rfl
  | base v => intro s; rfl
  | structV n fs => intro s; rfl
  | sliceV e xs => intro s; rfl
  | mapV k v es => intro s; rfl
  | mapNilV k v => intro s; rfl

theorem derefsOk_val_ne_invalid (a : RValue) (h : derefsOk a = true) :
    ∀ s ro, (indirectVal a s ro).val ≠ .invalid := by
  induction a with
  | ptrSome ty v ih =>
    intro s ro
    rw [indirectVal]
    exact ih (by simpa [derefsOk] using h) true ro
  | ptrNil ty => simp [derefsOk] at h
  | invalid => simp [derefsOk] at h
  | base v => intro s ro; simp [indirectVal]
  | structV n fs => intro s ro; simp [indirectVal]
  | sliceV e xs => intro s ro; simp [indirectVal]
  | mapV k v es => intro s ro; simp [indirectVal]
  | mapNilV k v => intro s ro; simp [indirectVal]

theorem derefsOk_settable_true (a : RValue) (h : derefsOk a = true) :
    ∀ ro, (indirectVal a true ro).settable = true := by
  induction a with
  | ptrSome ty v ih =>
    intro ro
    rw [indirectVal]
    exact ih (by simpa [derefsOk] using h) ro
  | ptrNil ty => simp [derefsOk] at h
  | invalid => simp [derefsOk] at h
  | base v => intro ro; rfl
  | structV n fs => intro ro; rfl
  | sliceV e xs => intro ro; rfl
  | mapV k v es => intro ro; rfl
  | mapNilV k v => intro ro; rfl

theorem derefsOk_ptr_settable (a : RValue) (h : derefsOk a = true) (hp : isPtrVal a = true) :
    ∀ s ro, (indirectVal a s ro).settable = true := by
  cases a with
  | ptrSome ty v =>
    intro s ro
    rw [indirectVal]
    exact derefsOk_settable_true v (by simpa [derefsOk] using h) ro
  | ptrNil ty => simp [derefsOk] at h
  | invalid => simp [isPtrVal] at hp
  | base v => simp [isPtrVal] at hp
  | structV n fs => simp [isPtrVal] at hp
  | sliceV e xs => simp [isPtrVal] at hp
  | mapV k v es => simp [isPtrVal] at hp
  | mapNilV k v => simp [isPtrVal] at hp

theorem fval_handle_ok (fv : FVal) :
    (indirectH ⟨FVal.toR fv, true, false⟩).settable = true ∨
      (indirectH ⟨FVal.toR fv, true, false⟩).val = .invalid := by
  cases fv with
  | plain v => exact .inl rfl
  | ptr ty v =>
    cases v with
    | none => exact .inr rfl
    | some x => exact .inl rfl

theorem findField_mem (l : List Fld) (n : String) (g : Fld) (h : findField l n = some g) :
    g ∈ l := by
  induction l with
  | nil => simp [findField] at h
  | cons f rest ih =>
    by_cases hf : f.1 = n
    · rw [findField, if_pos hf] at h
      cases h
      simp
    · rw [findField, if_neg hf] at h
      exact List.mem_cons_of_mem _ (ih h)

theorem foldlM_ok {α β : Type} (l : List α) (step : β → α → Except GoPanic β)
    (h : ∀ acc a, a ∈ l → ∃ acc', step acc a = .ok acc') :
    ∀ acc, ∃ res, l.foldlM step acc = .ok res := by
  induction l with
  | nil =>
    intro acc
    exact ⟨acc, by rw [List.foldlM_nil, except_pure_eq]⟩
  | cons a l ih =>
    intro acc
    obtain ⟨acc', ha⟩ := h acc a (by simp)
    obtain ⟨res, hres⟩ := ih (fun acc2 b hb => h acc2 b (by simp [hb])) acc'
    exact ⟨res, by rw [List.foldlM_cons, ha, except_bind_ok, hres]⟩

theorem mapPairStep_ok (cfg : Config) (kD vD : SType) (acc : List (SVal × SVal))
    (p : SVal × SVal) : ∃ acc', mapPairStep cfg kD vD acc p = .ok acc' := by
  unfold mapPairStep
  obtain ⟨rk, hk⟩ := copyValue_no_panic cfg ⟨.base p.1, false, false⟩
    ⟨.base (zeroS kD), true, false⟩ (by simp [indirectH, indirectVal])
    (Or.inl (by simp [indirectH, indirectVal]))
  rw [hk, except_bind_ok]
  by_cases hb : rk.1 = false
  · rw [if_pos hb]
    exact ⟨acc, rfl⟩
  · rw [if_neg hb]
    obtain ⟨rv, hv⟩ := copyValue_no_panic cfg ⟨.base p.2, false, false⟩
      ⟨.base (zeroS vD), true, false⟩ (by simp [indirectH, indirectVal])
      (Or.inl (by simp [indirectH, indirectVal]))
    rw [hv, except_bind_ok]
    by_cases hb2 : rv.1 = false
    · rw [if_pos hb2]
      exact ⟨acc, rfl⟩
    · rw [if_neg hb2]
      exact ⟨_, rfl⟩

theorem structFieldInto_ok (cfg : Config) (src : Handle) (acc : List Fld) (fname : String)
    (hro : (indirectH src).ro = false) :
    ∃ acc', structFieldInto cfg src acc fname = .ok acc' := by
  unfold structFieldInto
  cases hf : findField acc fname with
  | none => exact ⟨acc, rfl⟩
  | some g =>
    simp only []
    by_cases hflag : g.2.1 = false
    · rw [if_pos hflag]
      exact ⟨acc, rfl⟩
    · rw [if_neg hflag]
      obtain ⟨out, hcv⟩ := copyValue_no_panic cfg src
        ⟨FVal.toR (allocIfNilPtr g.2.2), true, false⟩ hro (fval_handle_ok _)
      rw [hcv, except_bind_ok]
      exact ⟨_, rfl⟩

theorem structStructStep_ok (cfg : Config) (fsS : List Fld) (acc : List Fld) (fld : Fld)
    (hexp : fsS.all (fun f => f.2.1) = true) (hmem : fld ∈ fsS) :
    ∃ acc', structStructStep cfg fsS acc fld = .ok acc' := by
  unfold structStructStep
  have hsrcexp : ((findField fsS fld.1).getD fld).2.1 = true := by
    cases hf : findField fsS fld.1 with
    | none => simpa using List.all_eq_true.mp hexp fld hmem
    | some g => simpa using List.all_eq_true.mp hexp g (findField_mem fsS fld.1 g hf)
  apply structFieldInto_ok
  rw [hsrcexp]
  exact indirectVal_ro_false _ false

theorem mapStructStep_ok (cfg : Config) (acc : List Fld) (p : SVal × SVal) :
    ∃ acc', mapStructStep cfg acc p = .ok acc' := by
  unfold mapStructStep
  exact structFieldInto_ok cfg _ acc _ (by simp [indirectH, indirectVal])

theorem structMapStep_ok (cfg : Config) (kD vD : SType) (fsS : List Fld)
    (acc : List (SVal × SVal)) (fld : Fld) (hexp : fsS.all (fun f => f.2.1) = true)
    (hmem : fld ∈ fsS) : ∃ acc', structMapStep cfg kD vD fsS acc fld = .ok acc' := by
  unfold structMapStep
  obtain ⟨rk, hk⟩ := copyValue_no_panic cfg ⟨.base (.s fld.1), false, false⟩
    ⟨.base (zeroS kD), true, false⟩ (by simp [indirectH, indirectVal])
    (Or.inl (by simp [indirectH, indirectVal]))
  rw [hk, except_bind_ok]
  by_cases hb : rk.1 = false
  · rw [if_pos hb]
    exact ⟨acc, rfl⟩
  · rw [if_neg hb]
    simp only []
    have hsrcexp : ((findField fsS fld.1).getD fld).2.1 = true := by
      cases hf : findField fsS fld.1 with
      | none => simpa using List.all_eq_true.mp hexp fld hmem
      | some g => simpa using List.all_eq_true.mp hexp g (findField_mem fsS fld.1 g hf)
    obtain ⟨rv, hv⟩ := copyValue_no_panic cfg
      ⟨FVal.toR ((findField fsS fld.1).getD fld).2.2, false,
        !((findField fsS fld.1).getD fld).2.1⟩
      ⟨.base (zeroS vD), true, false⟩
      (by rw [hsrcexp]; exact indirectVal_ro_false _ false)
      (Or.inl (by simp [indirectH, indirectVal]))
    rw [hv, except_bind_ok]
    by_cases hb2 : rv.1 = false
    · rw [if_pos hb2]
      exact ⟨acc, rfl⟩
    · rw [if_neg hb2]
      exact ⟨_, rfl⟩

/-- C6 counterexample: with a valid source and a nil destination argument
(the zero `reflect.Value`), `Copy` panics at `toValue.Type()` instead of
silently no-opping. -/
theorem copy_nil_destination_panics :
    Copy defaultConfig (.base (.s "x")) .invalid = .error .panicked := by
  decide

/-- C6 as amended: an invalid source is a no-op; a valid non-pointer
destination is a no-op leaving the destination's backing value
unmodified; and `Copy` never raises provided the destination is a pointer
that fully dereferences, the source fully dereferences, and the source is
not a struct with unexported fields — `time.Time` included, since its
three fields are all unexported and a `time.Time` source copied into a
numeric-valued map really panics.  (A nil destination argument — or a
nil pointer at any level of either argument — panics at
`reflect.Value.Type`.) -/
theorem copy_silent_noop_amended (cfg : Config) :
    (∀ toA, Copy cfg .invalid toA = .ok toA) ∧
    (∀ fromA toA, toA ≠ .invalid → isPtrVal toA = false → Copy cfg fromA toA = .ok toA) ∧
    (∀ fromA toA, derefsOk fromA = true → isPtrVal toA = true → derefsOk toA = true →
      srcFieldsExported fromA = true → ∃ r, Copy cfg fromA toA = .ok r) := by
  refine ⟨fun toA => by rw [Copy, if_pos rfl], ?_, ?_⟩
  · intro fromA toA htne hpt
    by_cases hfe : fromA = .invalid
    · rw [Copy, if_pos hfe]
    · rw [Copy, if_neg hfe, if_neg htne, if_pos hpt]
  · intro fromA toA hdf hpt hdt hsrc
    have hfne : fromA ≠ .invalid := by
      intro he
      rw [he] at hdf
      simp [derefsOk] at hdf
    have htne : toA ≠ .invalid := by
      intro he
      rw [he] at hpt
      simp [isPtrVal] at hpt
    rw [Copy, if_neg hfne, if_neg htne, if_neg (by simp [hpt])]
    simp only [indirectH]
    have hfv := derefsOk_val_ne_invalid fromA hdf false false
    have htv := derefsOk_val_ne_invalid toA hdt false false
    rw [if_neg hfv, if_neg htv]
    split
    · rw [sliceCopyFold_eq, except_bind_ok]
      exact ⟨_, rfl⟩
    · rename_i nmS fsS nmD fsD heqf heqt
      unfold srcFieldsExported at hsrc
      rw [heqf] at hsrc
      obtain ⟨res, hres⟩ := foldlM_ok fsS (structStructStep cfg fsS)
        (fun acc fld hmem => structStructStep_ok cfg fsS acc fld (by simpa using hsrc) hmem)
        fsD
      have hres' : structStructFold cfg fsS fsD = .ok res := hres
      rw [hres', except_bind_ok]
      exact ⟨_, rfl⟩
    · exact ⟨_, rfl⟩
    · exact ⟨_, rfl⟩
    · exact ⟨_, rfl⟩
    · rename_i kS vS es kD vD ds heqf heqt
      obtain ⟨res, hres⟩ := foldlM_ok es (mapPairStep cfg kD vD)
        (fun acc p _ => mapPairStep_ok cfg kD vD acc p) ds
      have hres' : mapCopyFold cfg kD vD es ds = .ok res := hres
      rw [hres', except_bind_ok]
      exact ⟨_, rfl⟩
    · rename_i kS vS es kD vD heqf heqt
      obtain ⟨res, hres⟩ := foldlM_ok es (mapPairStep cfg kD vD)
        (fun acc p _ => mapPairStep_ok cfg kD vD acc p) []
      have hres' : mapCopyFold cfg kD vD es [] = .ok res := hres
      rw [hres', except_bind_ok]
      exact ⟨_, rfl⟩
    · exact ⟨_, rfl⟩
    · exact ⟨_, rfl⟩
    · rename_i kS vS es nmD fsD heqf heqt
      obtain ⟨res, hres⟩ := foldlM_ok es (mapStructStep cfg)
        (fun acc p _ => mapStructStep_ok cfg acc p) fsD
      have hres' : mapStructFold cfg es fsD = .ok res := hres
      rw [hres', except_bind_ok]
      exact ⟨_, rfl⟩
    · exact ⟨_, rfl⟩
    · exact ⟨_, rfl⟩
    · exact ⟨_, rfl⟩
    · rename_i nmS fsS kD vD ds heqf heqt
      unfold srcFieldsExported at hsrc
      rw [heqf] at hsrc
      obtain ⟨res, hres⟩ := foldlM_ok fsS (structMapStep cfg kD vD fsS)
        (fun acc fld hmem => structMapStep_ok cfg kD vD fsS acc fld (by simpa using hsrc) hmem)
        ds
      have hres' : structMapFold cfg kD vD fsS ds = .ok res := hres
      rw [hres', except_bind_ok]
      exact ⟨_, rfl⟩
    · rename_i nmS fsS kD vD heqf heqt
      unfold srcFieldsExported at hsrc
      rw [heqf] at hsrc
      obtain ⟨res, hres⟩ := foldlM_ok fsS (structMapStep cfg kD vD fsS)
        (fun acc fld hmem => structMapStep_ok cfg kD vD fsS acc fld (by simpa using hsrc) hmem)
        []
      have hres' : structMapFold cfg kD vD fsS [] = .ok res := hres
      rw [hres', except_bind_ok]
      exact ⟨_, rfl⟩
    · rename_i x kD vD ds heqf heqt
      unfold srcFieldsExported at hsrc
      rw [heqf] at hsrc
      simp at hsrc
    · rename_i x kD vD heqf heqt
      unfold srcFieldsExported at hsrc
      rw [heqf] at hsrc
      simp at hsrc
    · obtain ⟨out, hcv⟩ := copyValue_no_panic cfg ⟨fromA, false, false⟩ ⟨toA, false, false⟩
        (indirectVal_ro_false fromA false)
        (Or.inl (derefsOk_ptr_settable toA hdt hpt false false))
      rw [hcv, except_bind_ok]
      exact ⟨_, rfl⟩

/-- Witness for the amended C6: an invalid source is a no-op, a
non-pointer destination is a no-op with the backing value unmodified, and
a well-formed pointer-destination copy runs without a panic. -/
theorem copy_silent_noop_amended_witness :
    Copy defaultConfig .invalid (.base (.i .i 5)) = .ok (.base (.i .i 5)) ∧
    Copy defaultConfig (.base (.s "x")) (.base (.i .i 5)) = .ok (.base (.i .i 5)) ∧
    ∃ r, Copy defaultConfig (.base (.s "7")) (.ptrSome (.base (.sInt .i)) (.base (.i .i 0))) =
      .ok r :=
  ⟨(copy_silent_noop_amended defaultConfig).1 _,
   (copy_silent_noop_amended defaultConfig).2.1 _ _ (by decide) (by decide),
   (copy_silent_noop_amended defaultConfig).2.2 _ _ (by decide) (by decide) (by decide)
     (by decide)⟩
